import Mathlib

/-!
# Package handlers of the dependency-fix engine

A shallow embedding of `packagehandlers/unsupportedpackagehandler.go` and
`packagehandlers/mavenpackagehandler.go`, and the properties proved about them.

Go strings are held as Lean strings (sequences of Unicode code points), Go slices as
lists, and a Go `error` result as `Option GoError` (`none` is `nil`).
-/

set_option autoImplicit false
set_option maxRecDepth 20000

namespace Frogbot

/-! ## Strings -/

/-- The Go `strings.Contains(s, sub)`: `sub` occurs in `s` as a contiguous run. -/
def strContains (s sub : String) : Prop := sub.data <:+: s.data

instance (s sub : String) : Decidable (strContains s sub) := by
  unfold strContains; infer_instance

/-- The Go `strings.Join`. -/
def stringsJoin : List String → String → String
  | [], _ => ""
  | [a], _ => a
  | a :: b :: rest, sep => a ++ sep ++ stringsJoin (b :: rest) sep

/-- The verb `%t` of `fmt.Sprintf`. -/
def fmtBool (b : Bool) : String := if b then "true" else "false"

/-! ## Errors -/

/-- Modelled from the spec: the reason code of an unsupported-fix error, declared in the
`utils` package outside the listed sources ("currently one reason: indirect dependency fix
not supported"). -/
inductive UnsupportedErrorType
  | IndirectDependencyFixNotSupported
  deriving DecidableEq, Repr

/-- Go `error` values met in the package handlers. `errorString` stands for every error
whose only observable is its message (`errors.New`, `fmt.Errorf`, `errors.Join`, and the
errors of the standard library); `ErrUnsupportedFix` is `*utils.ErrUnsupportedFix` with the
three fields the handlers set. -/
inductive GoError
  | errorString (s : String)
  | ErrUnsupportedFix (PackageName FixedVersion : String) (ErrorType : UnsupportedErrorType)
  deriving DecidableEq, Repr

/-- The part of `utils.VulnerabilityDetails` read by the handlers. `Technology` is the
technology tag, a string type of the command-line core library. -/
structure VulnerabilityDetails where
  Technology : String
  ImpactedDependencyName : String
  SuggestedFixedVersion : String
  deriving DecidableEq, Repr

/-! ## unsupportedpackagehandler.go -/

/-- `UnsupportedPackageHandler.UpdateDependency`. `ToFormal` is the method
`Technology.ToFormal` of the command-line core library. -/
def UnsupportedPackageHandler.UpdateDependency (ToFormal : String → String)
    (vulnDetails : VulnerabilityDetails) : Option GoError :=
  some (GoError.errorString
    ("frogbot currently does not support opening a pull request that fixes vulnerabilities in "
      ++ ToFormal vulnDetails.Technology))

/-! ## mavenpackagehandler.go: coordinates and the manifest tree -/

/-- The constant `mavenGavReader`. -/
def mavenGavReader : String := "maven-gav-reader.jar"

/-- The Go `unicode.IsSpace`, on the code point of a character. -/
def unicodeIsSpace (c : Char) : Bool :=
  let n := c.toNat
  decide ((9 ≤ n ∧ n ≤ 13) ∨ n = 32 ∨ n = 133 ∨ n = 160 ∨ n = 5760 ∨ (8192 ≤ n ∧ n ≤ 8202)
    ∨ n = 8232 ∨ n = 8233 ∨ n = 8239 ∨ n = 8287 ∨ n = 12288)

/-- Drop from both ends of `l` the characters that satisfy `p`. -/
def trimBoth (p : Char → Bool) (l : List Char) : List Char :=
  ((l.dropWhile p).reverse.dropWhile p).reverse

/-- The Go `strings.TrimSpace`. -/
def stringsTrimSpace (s : String) : String := String.mk (trimBoth unicodeIsSpace s.data)

/-- The Go `strings.Trim(s, cutset)`. -/
def stringsTrim (s cutset : String) : String :=
  String.mk (trimBoth (fun c => decide (c ∈ cutset.data)) s.data)

/-- The Go `strings.HasPrefix(s, pre)`. -/
def stringsHasPrefix (s pre : String) : Prop := pre.data <+: s.data

instance (s pre : String) : Decidable (stringsHasPrefix s pre) := by
  unfold stringsHasPrefix; infer_instance

/-- The struct `gavCoordinate`. The unexported field `foundInDependencyManagement` has no
XML tag: the decoder leaves it at its zero value `false`. -/
structure gavCoordinate where
  GroupId : String
  ArtifactId : String
  Version : String
  foundInDependencyManagement : Bool
  deriving DecidableEq, Repr

/-- The method `gavCoordinate.isEmpty`. -/
def gavCoordinate.isEmpty (gc : gavCoordinate) : Bool :=
  decide (gc.GroupId = "" ∧ gc.ArtifactId = "" ∧ gc.Version = "")

/-- The method `gavCoordinate.trimSpaces`. -/
def gavCoordinate.trimSpaces (gc : gavCoordinate) : gavCoordinate :=
  { gc with
    GroupId := stringsTrimSpace gc.GroupId
    ArtifactId := stringsTrimSpace gc.ArtifactId
    Version := stringsTrimSpace gc.Version }

/-- The struct `mavenPlugin`: its coordinate and the plugins nested in its configuration. -/
inductive mavenPlugin where
  | mk (gav : gavCoordinate) (NestedPlugins : List mavenPlugin)

/-- The struct `mavenDependency`: its coordinate, its dependencies, its
dependency-management entries and its build plugins. -/
inductive mavenDependency where
  | mk (gav : gavCoordinate) (Dependencies : List mavenDependency)
      (DependencyManagement : List mavenDependency) (Plugins : List mavenPlugin)

mutual
/-- The method `mavenPlugin.collectMavenPlugins`. -/
def collectMavenPlugins : mavenPlugin → List gavCoordinate
  | .mk gav NestedPlugins =>
    (if !gav.isEmpty then [gav.trimSpaces] else []) ++ collectMavenPluginsRange NestedPlugins
/-- The loop `for _, plugin := range ...` over a slice of plugins. -/
def collectMavenPluginsRange : List mavenPlugin → List gavCoordinate
  | [] => []
  | plugin :: rest => collectMavenPlugins plugin ++ collectMavenPluginsRange rest
end

mutual
/-- The method `mavenDependency.collectMavenDependencies`. -/
def collectMavenDependencies (foundInDependencyManagement : Bool) :
    mavenDependency → List gavCoordinate
  | .mk gav Dependencies DependencyManagement Plugins =>
    (if !gav.isEmpty then
        [({ gav with foundInDependencyManagement := foundInDependencyManagement }).trimSpaces]
      else [])
      ++ collectMavenDependenciesRange foundInDependencyManagement Dependencies
      ++ collectMavenDependenciesRange true DependencyManagement
      ++ collectMavenPluginsRange Plugins
/-- The loop `for _, dependency := range ...` over a slice of dependencies, each walked
with the flag `foundInDependencyManagement`. -/
def collectMavenDependenciesRange (foundInDependencyManagement : Bool) :
    List mavenDependency → List gavCoordinate
  | [] => []
  | dependency :: rest =>
    collectMavenDependencies foundInDependencyManagement dependency
      ++ collectMavenDependenciesRange foundInDependencyManagement rest
end

/-! ## The dependency map -/

/-- The struct `pomDependencyDetails`. -/
structure pomDependencyDetails where
  properties : List String
  currentVersion : String
  foundInDependencyManagement : Bool
  deriving DecidableEq, Repr

/-- A non-nil Go `map[string]pomDependencyDetails`, as an association list with one pair
per key. The handler never ranges over the map, so the order of the pairs is not observed. -/
abbrev DepMap := List (String × pomDependencyDetails)

/-- The map read `m[k]` with its presence flag. -/
def mapGet : DepMap → String → Option pomDependencyDetails
  | [], _ => none
  | (k', v) :: rest, k => if k' = k then some v else mapGet rest k

/-- The map write `m[k] = v`. -/
def mapSet : DepMap → String → pomDependencyDetails → DepMap
  | [], k, v => [(k, v)]
  | (k', v') :: rest, k, v => if k' = k then (k, v) :: rest else (k', v') :: mapSet rest k v

/-- The `properties` field of `m[k]`, the zero value (no property) when `k` is absent. -/
def mapProperties (m : DepMap) (k : String) : List String :=
  match mapGet m k with
  | some details => details.properties
  | none => []

/-- The key of a coordinate in the map: `fmt.Sprintf("%s:%s", GroupId, ArtifactId)`. -/
def depName (dependency : gavCoordinate) : String :=
  dependency.GroupId ++ ":" ++ dependency.ArtifactId

/-- One round of the loop of `fillDependenciesMap` (lines 104-120) on a non-nil map. -/
def fillDependency (m : DepMap) (dependency : gavCoordinate) : DepMap :=
  if dependency.Version = "" then m
  else
    let m1 :=
      if (mapGet m (depName dependency)).isNone then
        mapSet m (depName dependency)
          { properties := []
            currentVersion := dependency.Version
            foundInDependencyManagement := dependency.foundInDependencyManagement }
      else m
    if stringsHasPrefix dependency.Version "$\x7b" then
      let trimmedVersion := stringsTrim dependency.Version "$\x7b\x7d"
      if trimmedVersion ∈ mapProperties m1 (depName dependency) then m1
      else
        mapSet m1 (depName dependency)
          { properties := mapProperties m1 (depName dependency) ++ [trimmedVersion]
            currentVersion := dependency.Version
            foundInDependencyManagement := dependency.foundInDependencyManagement }
    else m1

/-- What a call does: it returns, or it panics. -/
inductive Outcome (α : Type) where
  | returned (a : α)
  | panicked (reason : String)
  deriving DecidableEq, Repr

/-- The loop of `fillDependenciesMap` over the collected coordinates. The map field may be
nil (`none`): reading a nil map finds no key, writing to it panics. -/
def fillDependencies : Option DepMap → List gavCoordinate → Outcome (Option DepMap)
  | m, [] => .returned m
  | some m, dependency :: rest => fillDependencies (some (fillDependency m dependency)) rest
  | none, dependency :: rest =>
    if dependency.Version = "" then fillDependencies none rest
    else .panicked "assignment to entry in nil map"

/-! ## The handler, the world it runs in, and the trace of a run -/

/-- The struct `pomPath`. -/
structure pomPath where
  PomPath : String
  deriving DecidableEq, Repr

/-- The struct `MavenPackageHandler`. `ServerDetails` is the embedded pointer to the server
details of the command-line core library, held as a token (`none` is nil). -/
structure MavenPackageHandler where
  mavenDepToPropertyMap : Option DepMap
  pomPaths : List pomPath
  isMavenGavReaderInstalled : Bool
  ServerDetails : Option String
  depsRepo : String
  deriving DecidableEq, Repr

/-- What running a Maven command leaves: the new world, the output, the failure if any. -/
structure Ran (W : Type) where
  world : W
  output : String
  err : Option String

/-- What an operating-system call leaves: the new world and the failure if any. -/
structure Did (W : Type) where
  world : W
  err : Option String

/-- The collaborators of the handler outside this file, over a world `W` (file system,
working directory, local Maven repository). A failure is given by its message. -/
structure Env (W : Type) where
  /-- The call `exec.Command("mvn", goals...).CombinedOutput()`. -/
  CombinedOutput : W → List String → Ran W
  /-- The calls `java.CreateMvnProps` and `rtutils.ReadMavenConfig`: the failure, if any. -/
  ReadMavenConfig : W → String → Option String → Option String
  /-- The call `mvnutils.RunMvn` under the configuration read for the repository and the
  server details; `output` is what the run wrote to its output writer. -/
  RunMvn : W → String → Option String → List String → Ran W
  /-- The call `os.ReadFile(filepath.Clean(pomPath))`. -/
  ReadFile : W → String → Except String String
  /-- The call `xml.Unmarshal` into a `mavenDependency`. -/
  xmlUnmarshal : String → Except String mavenDependency
  /-- The call `json.Unmarshal` into a `pomPath`. -/
  jsonUnmarshal : String → Except String pomPath
  /-- The call `os.CreateTemp("", pattern)`: the name of the file created. -/
  CreateTemp : W → String → W × Except String String
  /-- The function `path.Dir`. -/
  pathDir : String → String
  /-- The call `os.Getwd`. -/
  Getwd : W → Except String String
  /-- The call `os.Chdir`. -/
  Chdir : W → String → Did W
  /-- The write of the embedded jar to the named file. -/
  Write : W → String → Did W
  /-- The call `Close` on the named file. -/
  Close : W → String → Did W
  /-- The call `os.Remove`. -/
  Remove : W → String → Did W
  /-- The method `ErrUnsupportedFix.Error` of the `utils` package. -/
  unsupportedFixText : String → String → UnsupportedErrorType → String

/-- The levels of the log lines the handler writes. -/
inductive LogLevel
  | Debug
  | Info
  deriving DecidableEq, Repr

/-- The state of a run: the world, the goals of every Maven command issued so far (oldest
first) and the log lines written so far. -/
structure Sys (W : Type) where
  world : W
  issued : List (List String)
  logged : List (LogLevel × String)
  deriving DecidableEq, Repr

/-- The method `Error` of a Go `error`. -/
def GoError.Error {W : Type} (env : Env W) : GoError → String
  | .errorString s => s
  | .ErrUnsupportedFix PackageName FixedVersion ErrorType =>
    env.unsupportedFixText PackageName FixedVersion ErrorType

/-- The function `errors.Join`: nil when every argument is nil, else an error whose message
is the messages of the non-nil arguments, one per line. -/
def errorsJoin {W : Type} (env : Env W) (errs : List (Option GoError)) : Option GoError :=
  match errs.filterMap (fun e => e.map (GoError.Error env)) with
  | [] => none
  | msgs => some (.errorString (stringsJoin msgs "\n"))

/-! ## Running Maven -/

/-- The results of `runMvnCommand` with the state it leaves. -/
structure MvnRet (W : Type) where
  sys : Sys W
  readerOutput : String
  err : Option GoError
  deriving DecidableEq, Repr

/-- The results of a handler method that returns an error only, with the handler and the
state it leaves. -/
structure Ret (W : Type) where
  mph : MavenPackageHandler
  sys : Sys W
  err : Option GoError
  deriving DecidableEq, Repr

/-- The call `io.ReadFull(&buf, p)` for a destination `p` of length `n`: at most `n`
characters are taken from the buffer. -/
def ioReadFull (buf : String) (n : Nat) : String := String.mk (buf.data.take n)

/-- The message `fmt.Errorf("failed running command 'mvn %s': %s", ...)`. -/
def failedRunningCommand (goals : List String) (failure : String) : String :=
  "failed running command 'mvn " ++ stringsJoin goals " " ++ "': " ++ failure

/-- The method `MavenPackageHandler.runMvnCommand`. -/
def runMvnCommand {W : Type} (env : Env W) (mph : MavenPackageHandler) (sys : Sys W)
    (goals : List String) : MvnRet W :=
  if mph.depsRepo = "" then
    let ran := env.CombinedOutput sys.world goals
    let sys1 : Sys W := { sys with world := ran.world, issued := sys.issued ++ [goals] }
    match ran.err with
    | some failure =>
      let sys2 : Sys W :=
        if ran.output.length > 0 then
          { sys1 with logged := sys1.logged ++ [(LogLevel.Info, ran.output)] }
        else sys1
      { sys := sys2, readerOutput := ran.output
        err := some (.errorString (failedRunningCommand goals failure)) }
    | none => { sys := sys1, readerOutput := ran.output, err := none }
  else
    match env.ReadMavenConfig sys.world mph.depsRepo mph.ServerDetails with
    | some failure => { sys := sys, readerOutput := "", err := some (.errorString failure) }
    | none =>
      let ran := env.RunMvn sys.world mph.depsRepo mph.ServerDetails goals
      let sys1 : Sys W := { sys with world := ran.world, issued := sys.issued ++ [goals] }
      -- readerOutput = make([]byte, 0), then io.ReadFull(&buf, readerOutput)
      let readerOutput := ioReadFull ran.output 0
      match ran.err with
      | some failure =>
        let sys2 : Sys W :=
          if readerOutput.length > 0 then
            { sys1 with logged := sys1.logged ++ [(LogLevel.Info, readerOutput)] }
          else sys1
        { sys := sys2, readerOutput := readerOutput
          err := some (.errorString (failedRunningCommand goals failure)) }
      | none => { sys := sys1, readerOutput := readerOutput, err := none }

/-- The argument list `updateVersionArgs` built by `updatePackageVersion`. -/
def updateVersionArgs (impactedPackage fixedVersion : String)
    (foundInDependencyManagement : Bool) : List String :=
  ["-U", "-B", "org.codehaus.mojo:versions-maven-plugin:use-dep-version",
    "-Dincludes=" ++ impactedPackage,
    "-DdepVersion=" ++ fixedVersion, "-DgenerateBackupPoms=false",
    "-DprocessDependencies=" ++ fmtBool (!foundInDependencyManagement),
    "-DprocessDependencyManagement=" ++ fmtBool foundInDependencyManagement]

/-- The method `MavenPackageHandler.updatePackageVersion`. -/
def updatePackageVersion {W : Type} (env : Env W) (mph : MavenPackageHandler) (sys : Sys W)
    (impactedPackage fixedVersion : String) (foundInDependencyManagement : Bool) : Ret W :=
  let args := updateVersionArgs impactedPackage fixedVersion foundInDependencyManagement
  let updateVersionCmd := "mvn " ++ stringsJoin args " "
  let sys1 : Sys W :=
    { sys with logged := sys.logged ++ [(LogLevel.Debug, "Running '" ++ updateVersionCmd ++ "'")] }
  let ran := runMvnCommand env mph sys1 args
  { mph := mph, sys := ran.sys, err := ran.err }

/-- The argument list `updatePropertyArgs` built by `updateProperties` for one property. -/
def updatePropertyArgs (depDetails : pomDependencyDetails) (fixedVersion property : String) :
    List String :=
  ["-U", "-B", "org.codehaus.mojo:versions-maven-plugin:set-property",
    "-Dproperty=" ++ property,
    "-DnewVersion=" ++ fixedVersion, "-DgenerateBackupPoms=false",
    "-DprocessDependencies=" ++ fmtBool (!depDetails.foundInDependencyManagement),
    "-DprocessDependencyManagement=" ++ fmtBool depDetails.foundInDependencyManagement]

/-- The loop of `updateProperties` over the properties still to be rewritten. -/
def updatePropertiesRange {W : Type} (env : Env W) (mph : MavenPackageHandler)
    (depDetails : pomDependencyDetails) (fixedVersion : String) :
    Sys W → List String → Ret W
  | sys, [] => { mph := mph, sys := sys, err := none }
  | sys, property :: rest =>
    let args := updatePropertyArgs depDetails fixedVersion property
    let updatePropertyCmd := "mvn " ++ stringsJoin args " "
    let sys1 : Sys W :=
      { sys with
        logged := sys.logged ++ [(LogLevel.Debug, "Running '" ++ updatePropertyCmd ++ "'")] }
    let ran := runMvnCommand env mph sys1 args
    match ran.err with
    | some err =>
      { mph := mph, sys := ran.sys
        err := some (.errorString
          ("failed updating " ++ property ++ " property: " ++ err.Error env ++ "\n")) }
    | none => updatePropertiesRange env mph depDetails fixedVersion ran.sys rest

/-- The method `MavenPackageHandler.updateProperties`. -/
def updateProperties {W : Type} (env : Env W) (mph : MavenPackageHandler) (sys : Sys W)
    (depDetails : pomDependencyDetails) (fixedVersion : String) : Ret W :=
  updatePropertiesRange env mph depDetails fixedVersion sys depDetails.properties

/-! ## Installing the reader plugin and finding the poms -/

/-- The goals of the command that installs the reader plugin from the named file. -/
def installProperties (file : String) : List String :=
  ["org.apache.maven.plugins:maven-install-plugin:2.5.2:install-file", "-Dfile=" ++ file]

/-- The body of `installMavenGavReader` from `os.Getwd` to its return statement, for the
temporary file `file`: the results at the return, and the directory to go back to when the
deferred `os.Chdir(currentWd)` has been registered. -/
def installMavenGavReaderBody {W : Type} (env : Env W) (mph : MavenPackageHandler)
    (sys : Sys W) (file : String) : Ret W × Option String :=
  match env.Getwd sys.world with
  | .error failure => ({ mph := mph, sys := sys, err := some (.errorString failure) }, none)
  | .ok currentWd =>
    let cd := env.Chdir sys.world (env.pathDir file)
    match cd.err with
    | some failure =>
      ({ mph := mph, sys := { sys with world := cd.world }
         err := some (.errorString
           ("failed to change dir to the maven gav reader temp dir:\n" ++ failure)) }, none)
    | none =>
      let wr := env.Write cd.world file
      match wr.err with
      | some failure =>
        ({ mph := mph, sys := { sys with world := wr.world }
           err := some (.errorString
             ("failed writing content to the " ++ mavenGavReader ++ " file: \n" ++ failure)) },
          some currentWd)
      | none =>
        let ran := runMvnCommand env mph { sys with world := wr.world } (installProperties file)
        match ran.err with
        | some err =>
          ({ mph := mph, sys := ran.sys
             err := some (.errorString
               ("failed to install the maven-gav-reader plugin: " ++ err.Error env)) },
            some currentWd)
        | none =>
          ({ mph := { mph with isMavenGavReaderInstalled := true }, sys := ran.sys, err := none },
            some currentWd)

/-- The method `MavenPackageHandler.installMavenGavReader`. The deferred calls run last
registered first: the return to the working directory, then the close and the removal of
the temporary file, each joined to the error of the body. -/
def installMavenGavReader {W : Type} (env : Env W) (mph : MavenPackageHandler)
    (sys : Sys W) : Ret W :=
  if mph.isMavenGavReaderInstalled then { mph := mph, sys := sys, err := none }
  else
    match env.CreateTemp sys.world ("*-" ++ mavenGavReader) with
    | (w0, .error failure) =>
      { mph := mph, sys := { sys with world := w0 }
        err := some (.errorString
          ("failed to create a temp " ++ mavenGavReader ++ " file: \n" ++ failure)) }
    | (w0, .ok file) =>
      let body := installMavenGavReaderBody env mph { sys with world := w0 } file
      let back : Ret W :=
        match body.2 with
        | none => body.1
        | some currentWd =>
          let cd := env.Chdir body.1.sys.world currentWd
          { mph := body.1.mph, sys := { body.1.sys with world := cd.world }
            err := errorsJoin env [body.1.err, cd.err.map GoError.errorString] }
      let cl := env.Close back.sys.world file
      let rm := env.Remove cl.world file
      { mph := back.mph, sys := { back.sys with world := rm.world }
        err := errorsJoin env
          [back.err, cl.err.map GoError.errorString, rm.err.map GoError.errorString] }

/-- The pieces of a character sequence between line feeds, as `strings.Split(s, "\n")`
cuts them. -/
def splitLines : List Char → List (List Char)
  | [] => [[]]
  | c :: cs =>
    if c = '\n' then [] :: splitLines cs
    else
      match splitLines cs with
      | [] => [[c]]
      | line :: lines => (c :: line) :: lines

/-- The call `strings.Split(s, "\n")`. -/
def stringsSplitLines (s : String) : List String := (splitLines s.data).map String.mk

/-- The call `strings.ReplaceAll` that doubles every backslash (code point 92). -/
def escapeBackslashes (s : String) : String :=
  String.mk ((s.data.map (fun c => if c.toNat = 92 then [c, c] else [c])).flatten)

/-- The loop of `getProjectPoms` over the lines of the reader output: the paths
appended so far, and the error that stopped the loop if any. -/
def getProjectPomsRange {W : Type} (env : Env W) :
    List pomPath → List String → List pomPath × Option GoError
  | pomPaths, [] => (pomPaths, none)
  | pomPaths, jsonContent :: rest =>
    if jsonContent = "" then getProjectPomsRange env pomPaths rest
    else
      match env.jsonUnmarshal (escapeBackslashes jsonContent) with
      | .error failure => (pomPaths, some (.errorString failure))
      | .ok pp => getProjectPomsRange env (pomPaths ++ [pp]) rest

/-- The goals of the command that lists the poms of the project. -/
def gavReaderGoals : List String := ["com.jfrog.frogbot:maven-gav-reader:gav", "-q"]

/-- The method `MavenPackageHandler.getProjectPoms`. -/
def getProjectPoms {W : Type} (env : Env W) (mph : MavenPackageHandler) (sys : Sys W) :
    Ret W :=
  if mph.pomPaths.length > 0 then { mph := mph, sys := sys, err := none }
  else
    let ran := runMvnCommand env mph sys gavReaderGoals
    match ran.err with
    | some err =>
      { mph := mph, sys := ran.sys
        err := some (.errorString
          ("failed to get project poms while running maven-gav-reader: " ++ err.Error env)) }
    | none =>
      match getProjectPomsRange env mph.pomPaths (stringsSplitLines ran.readerOutput) with
      | (pomPaths, some err) =>
        { mph := { mph with pomPaths := pomPaths }, sys := ran.sys, err := some err }
      | (pomPaths, none) =>
        { mph := { mph with pomPaths := pomPaths }, sys := ran.sys
          err :=
            if pomPaths.length = 0 then
              some (.errorString "couldn't find any pom.xml files in the current project")
            else none }

/-! ## Filling the map and updating a dependency -/

/-- The function `getMavenDependencies`. -/
def getMavenDependencies {W : Type} (env : Env W) (pomXmlContent : String) :
    Except String (List gavCoordinate) :=
  match env.xmlUnmarshal pomXmlContent with
  | .error failure => .error failure
  | .ok dependencies => .ok (collectMavenDependencies false dependencies)

/-- The method `MavenPackageHandler.fillDependenciesMap`, in the world `w`. -/
def fillDependenciesMap {W : Type} (env : Env W) (mph : MavenPackageHandler) (w : W)
    (pomPath : String) : Outcome (MavenPackageHandler × Option GoError) :=
  match env.ReadFile w pomPath with
  | .error failure =>
    .returned (mph, some (.errorString ("couldn't read pom.xml file: " ++ failure)))
  | .ok contentBytes =>
    match getMavenDependencies env contentBytes with
    | .error failure => .returned (mph, some (.errorString failure))
    | .ok mavenDependencies =>
      match fillDependencies mph.mavenDepToPropertyMap mavenDependencies with
      | .panicked reason => .panicked reason
      | .returned m => .returned ({ mph with mavenDepToPropertyMap := m }, none)

/-- The loop of `UpdateDependency` over the pom paths (lines 171-175). -/
def fillDependenciesMapRange {W : Type} (env : Env W) (w : W) :
    MavenPackageHandler → List pomPath → Outcome (MavenPackageHandler × Option GoError)
  | mph, [] => .returned (mph, none)
  | mph, pp :: rest =>
    match fillDependenciesMap env mph w pp.PomPath with
    | .panicked reason => .panicked reason
    | .returned (mph1, some err) => .returned (mph1, some err)
    | .returned (mph1, none) => fillDependenciesMapRange env w mph1 rest

/-- The statement of lines 168-170: a nil map is replaced by an empty one. -/
def makeMapIfNil (mph : MavenPackageHandler) : MavenPackageHandler :=
  match mph.mavenDepToPropertyMap with
  | none => { mph with mavenDepToPropertyMap := some [] }
  | some _ => mph

/-- The read `mph.mavenDepToPropertyMap[k]` on the map field, nil or not. -/
def handlerMapGet (mph : MavenPackageHandler) (k : String) : Option pomDependencyDetails :=
  match mph.mavenDepToPropertyMap with
  | none => none
  | some m => mapGet m k

/-- The method `MavenPackageHandler.UpdateDependency`. -/
def MavenPackageHandler.UpdateDependency {W : Type} (env : Env W) (mph : MavenPackageHandler)
    (sys : Sys W) (vulnDetails : VulnerabilityDetails) : Outcome (Ret W) :=
  let installed := installMavenGavReader env mph sys
  match installed.err with
  | some err => .returned { mph := installed.mph, sys := installed.sys, err := some err }
  | none =>
    let found := getProjectPoms env installed.mph installed.sys
    match found.err with
    | some err => .returned { mph := found.mph, sys := found.sys, err := some err }
    | none =>
      let mph2 := makeMapIfNil found.mph
      match fillDependenciesMapRange env found.sys.world mph2 mph2.pomPaths with
      | .panicked reason => .panicked reason
      | .returned (mph3, some err) => .returned { mph := mph3, sys := found.sys, err := some err }
      | .returned (mph3, none) =>
        match handlerMapGet mph3 vulnDetails.ImpactedDependencyName with
        | none =>
          .returned
            { mph := mph3, sys := found.sys
              err := some (.ErrUnsupportedFix vulnDetails.ImpactedDependencyName
                vulnDetails.SuggestedFixedVersion
                UnsupportedErrorType.IndirectDependencyFixNotSupported) }
        | some depDetails =>
          if depDetails.properties.length > 0 then
            .returned
              (updateProperties env mph3 found.sys depDetails vulnDetails.SuggestedFixedVersion)
          else
            .returned
              (updatePackageVersion env mph3 found.sys vulnDetails.ImpactedDependencyName
                vulnDetails.SuggestedFixedVersion depDetails.foundInDependencyManagement)

/-! ## Commands that rewrite a manifest -/

/-- The goal of the command that rewrites the version of a dependency. -/
def useDepVersionGoal : String := "org.codehaus.mojo:versions-maven-plugin:use-dep-version"

/-- The goal of the command that rewrites a property. -/
def setPropertyGoal : String := "org.codehaus.mojo:versions-maven-plugin:set-property"

/-- A Maven command, given by its goals, is a manifest-rewrite command when it runs one of
the two rewriting goals of the versions plugin. -/
def isRewriteCommand (goals : List String) : Prop :=
  useDepVersionGoal ∈ goals ∨ setPropertyGoal ∈ goals

instance (goals : List String) : Decidable (isRewriteCommand goals) := by
  unfold isRewriteCommand; infer_instance

/-! ## A small project, for examples -/

/-- The text of the example pom: a project with one dependency whose version is the
property `lib.version`, and one with a literal version. -/
def examplePom : String :=
  "<project><groupId>com.acme</groupId><artifactId>app</artifactId><version>1.0</version>" ++
  "<dependencies><dependency><groupId>org.lib</groupId><artifactId>core</artifactId>" ++
  "<version>$\x7blib.version\x7d</version></dependency><dependency><groupId>junit</groupId>" ++
  "<artifactId>junit</artifactId><version>4.12</version></dependency></dependencies></project>"

/-- The tree the decoder builds from `examplePom`. -/
def exampleTree : mavenDependency :=
  .mk ⟨"com.acme", "app", "1.0", false⟩
    [.mk ⟨"org.lib", "core", "$\x7blib.version\x7d", false⟩ [] [] [],
     .mk ⟨"junit", "junit", "4.12", false⟩ [] [] []]
    [] []

/-- The text of a pom in which the project manages the dependency `org.lib:core`, whose
element holds a build plugin. -/
def managedPluginPom : String :=
  "<project><groupId>com.acme</groupId><artifactId>app</artifactId><version>1.0</version>" ++
  "<dependencyManagement><dependencies><dependency><groupId>org.lib</groupId>" ++
  "<artifactId>core</artifactId><version>2.0</version><build><plugins><plugin>" ++
  "<groupId>org.p</groupId><artifactId>plug</artifactId><version>3.0</version></plugin>" ++
  "</plugins></build></dependency></dependencies></dependencyManagement></project>"

/-- The tree the decoder builds from `managedPluginPom`: the project `com.acme:app`
manages the dependency `org.lib:core`, which declares the build plugin `org.p:plug`. -/
def managedPluginTree : mavenDependency :=
  .mk ⟨"com.acme", "app", "1.0", false⟩ []
    [.mk ⟨"org.lib", "core", "2.0", false⟩ [] [] [.mk ⟨"org.p", "plug", "3.0", false⟩ []]]
    []

/-- The line the reader plugin prints for the example pom. -/
def examplePomLine : String := "\x7b\"pomPath\":\"/work/pom.xml\"\x7d"

/-- An example world without state: the file `/work/pom.xml` holds `pom`, the decoder
knows the two example poms and rejects the empty text, the reader plugin prints one line
for the pom, and every Maven command fails with `mvnFailure` when that is given, after
printing `mvnOutput`. -/
def exampleEnv (pom : String) (mvnFailure : Option String) (mvnOutput : String) : Env Unit where
  CombinedOutput := fun w goals =>
    match mvnFailure with
    | some failure => ⟨w, mvnOutput, some failure⟩
    | none => ⟨w, if goals = gavReaderGoals then examplePomLine ++ "\n" else mvnOutput, none⟩
  ReadMavenConfig := fun _ _ _ => none
  RunMvn := fun w _ _ goals =>
    match mvnFailure with
    | some failure => ⟨w, mvnOutput, some failure⟩
    | none => ⟨w, if goals = gavReaderGoals then examplePomLine ++ "\n" else mvnOutput, none⟩
  ReadFile := fun _ path =>
    if path = "/work/pom.xml" then .ok pom
    else .error ("open " ++ path ++ ": no such file or directory")
  xmlUnmarshal := fun content =>
    if content = examplePom then .ok exampleTree
    else if content = managedPluginPom then .ok managedPluginTree
    else if content = "" then .error "EOF"
    else .error "XML syntax error on line 1: unexpected EOF"
  jsonUnmarshal := fun line =>
    if line = examplePomLine then .ok ⟨"/work/pom.xml"⟩ else .error "unexpected end of JSON input"
  CreateTemp := fun w _ => (w, .ok "/tmp/1234-maven-gav-reader.jar")
  pathDir := fun _ => "/tmp"
  Getwd := fun _ => .ok "/work"
  Chdir := fun w _ => ⟨w, none⟩
  Write := fun w _ => ⟨w, none⟩
  Close := fun w _ => ⟨w, none⟩
  Remove := fun w _ => ⟨w, none⟩
  unsupportedFixText := fun _ _ _ => "unsupported fix"

/-- A fresh handler: no map, no pom path, the reader plugin not installed, no repository. -/
def freshHandler : MavenPackageHandler :=
  { mavenDepToPropertyMap := none, pomPaths := [], isMavenGavReaderInstalled := false
    ServerDetails := none, depsRepo := "" }

/-- The state of a run before anything has been issued or logged. -/
def freshSys : Sys Unit := { world := (), issued := [], logged := [] }

/-- The failure of the Maven run that `runMvnCommand` starts for `goals`: `none` when no
run is started (the configuration could not be read) or when the run succeeds. -/
def mvnInvocationFailure {W : Type} (env : Env W) (mph : MavenPackageHandler) (sys : Sys W)
    (goals : List String) : Option String :=
  if mph.depsRepo = "" then (env.CombinedOutput sys.world goals).err
  else
    match env.ReadMavenConfig sys.world mph.depsRepo mph.ServerDetails with
    | some _ => none
    | none => (env.RunMvn sys.world mph.depsRepo mph.ServerDetails goals).err

/-- The handler and the state after the first two steps of `UpdateDependency` (lines
161-166): the installation of the reader plugin, then the discovery of the poms. -/
def afterDiscovery {W : Type} (env : Env W) (mph : MavenPackageHandler) (sys : Sys W) : Ret W :=
  getProjectPoms env (installMavenGavReader env mph sys).mph
    (installMavenGavReader env mph sys).sys

/-- The handler as the pom loop of `UpdateDependency` starts (line 171): after the first
two steps, with a nil map replaced by an empty one. -/
def beforeFill {W : Type} (env : Env W) (mph : MavenPackageHandler) (sys : Sys W) :
    MavenPackageHandler :=
  makeMapIfNil (afterDiscovery env mph sys).mph

/-- The handler reached from `freshHandler` once the example pom has been read into the
map. -/
def exampleFilledHandler : MavenPackageHandler :=
  { mavenDepToPropertyMap := some
      [("com.acme:app", ⟨[], "1.0", false⟩),
       ("org.lib:core", ⟨["lib.version"], "$\x7blib.version\x7d", false⟩),
       ("junit:junit", ⟨[], "4.12", false⟩)]
    pomPaths := [⟨"/work/pom.xml"⟩]
    isMavenGavReaderInstalled := true
    ServerDetails := none
    depsRepo := "" }

/-! ## Where a declaration stands in the manifest tree -/

/-- A declaration of a manifest tree: the coordinate the decoder read for it, whether it is
a plugin declaration, and whether it lies inside a dependency-management section, that is
whether a `DependencyManagement` list is met on the way from the root to it. -/
structure Declaration where
  gav : gavCoordinate
  isPlugin : Bool
  inDependencyManagement : Bool
  deriving DecidableEq, Repr

mutual
/-- The declarations of a plugin and of the plugins nested in it, the plugin first;
`inside` tells whether the plugin lies inside a dependency-management section. -/
def pluginDeclarations (inside : Bool) : mavenPlugin → List Declaration
  | .mk gav NestedPlugins =>
    ⟨gav, true, inside⟩ :: pluginDeclarationsRange inside NestedPlugins
/-- The declarations of a list of plugins, in the order of the list. -/
def pluginDeclarationsRange (inside : Bool) : List mavenPlugin → List Declaration
  | [] => []
  | plugin :: rest => pluginDeclarations inside plugin ++ pluginDeclarationsRange inside rest
end

mutual
/-- The declarations of a manifest tree: the node, then its dependencies, then its
dependency-management entries, then its plugins; `inside` tells whether the node lies
inside a dependency-management section, and everything beneath a `DependencyManagement`
list does. -/
def declarations (inside : Bool) : mavenDependency → List Declaration
  | .mk gav Dependencies DependencyManagement Plugins =>
    ⟨gav, false, inside⟩ :: declarationsRange inside Dependencies
      ++ declarationsRange true DependencyManagement
      ++ pluginDeclarationsRange inside Plugins
/-- The declarations of a list of dependencies, in the order of the list. -/
def declarationsRange (inside : Bool) : List mavenDependency → List Declaration
  | [] => []
  | dependency :: rest => declarations inside dependency ++ declarationsRange inside rest
end

/-- The coordinates of the declarations that are not empty, spaces trimmed, each with the
flag that `flag` gives to its declaration. -/
def flaggedCoordinates (flag : Declaration → Bool) (ds : List Declaration) :
    List gavCoordinate :=
  (ds.filter (fun d => !d.gav.isEmpty)).map
    (fun d => ({ d.gav with foundInDependencyManagement := flag d }).trimSpaces)

mutual
/-- A plugin as the decoder leaves it: the unexported flag is `false` at every node. -/
def pluginDecoded : mavenPlugin → Bool
  | .mk gav NestedPlugins => !gav.foundInDependencyManagement && pluginsDecoded NestedPlugins
/-- A list of plugins as the decoder leaves it. -/
def pluginsDecoded : List mavenPlugin → Bool
  | [] => true
  | plugin :: rest => pluginDecoded plugin && pluginsDecoded rest
end

mutual
/-- A manifest tree as the decoder leaves it: the unexported flag is `false` at every
node. -/
def treeDecoded : mavenDependency → Bool
  | .mk gav Dependencies DependencyManagement Plugins =>
    !gav.foundInDependencyManagement && treesDecoded Dependencies
      && treesDecoded DependencyManagement && pluginsDecoded Plugins
/-- A list of manifest trees as the decoder leaves it. -/
def treesDecoded : List mavenDependency → Bool
  | [] => true
  | dependency :: rest => treeDecoded dependency && treesDecoded rest
end

/-- The keys of a map. -/
def mapKeys (m : DepMap) : List String := m.map Prod.fst

/-- The characters that `fillDependenciesMap` trims from a version: the cutset of
`strings.Trim(dependency.Version, ...)`, a dollar sign and the two braces. -/
def versionCutset : String := "$\x7b\x7d"

/-- An example world in which the command that sets the property `bad` fails and every
other Maven command succeeds; the rest is as in `exampleEnv`. -/
def failingPropertyEnv (bad : String) : Env Unit :=
  { exampleEnv examplePom none "" with
    CombinedOutput := fun w goals =>
      if ("-Dproperty=" ++ bad) ∈ goals then
        ⟨w, "[ERROR] Property not found", some "exit status 1"⟩
      else ⟨w, "", none⟩ }

/-- A manifest tree of depth `n`: a dependency that declares a dependency, and so on `n`
times. -/
def nestedDependencies : Nat → mavenDependency
  | 0 => .mk ⟨"org.lib", "core", "1.0", false⟩ [] [] []
  | n + 1 => .mk ⟨"org.lib", "core", "1.0", false⟩ [nestedDependencies n] [] []

/-- A plugin of depth `n`: a plugin whose configuration nests a plugin, and so on `n`
times. -/
def nestedPlugins : Nat → mavenPlugin
  | 0 => .mk ⟨"org.p", "plug", "3.0", false⟩ []
  | n + 1 => .mk ⟨"org.p", "plug", "3.0", false⟩ [nestedPlugins n]

/-! ## The version comparator and the fix version resolver -/

/-- Modelled from the spec: the normalisation of a version string by the comparator of
section 4.1, "stripping a single leading v"; the code of the comparator and of the resolver
is in `commands/createfixpullrequests.go`, of which only the test file is among the
sources. -/
def stripLeadingV (version : String) : String :=
  match version.data with
  | 'v' :: rest => String.mk rest
  | _ => version

/-- Modelled from the spec: the segments of a version, "splitting on ." (section 4.1). -/
def versionSegments : List Char → List (List Char)
  | [] => [[]]
  | c :: cs =>
    if c = '.' then [] :: versionSegments cs
    else
      match versionSegments cs with
      | [] => [[c]]
      | segment :: segments => (c :: segment) :: segments

/-- Modelled from the spec: a numeric segment of section 4.1, a non-empty run of decimal
digits. -/
def isNumericSegment (segment : List Char) : Bool :=
  !segment.isEmpty && segment.all Char.isDigit

/-- Modelled from the spec: the number that a numeric segment of section 4.1 writes. -/
def segmentValue (segment : List Char) : Nat :=
  segment.foldl (fun n c => 10 * n + (c.toNat - 48)) 0

/-- Modelled from the spec: "missing trailing segments are treated as zero" (section 4.1):
the numeric segments without their trailing zeros, so that `1.0` and `1` are the same. -/
def dropTrailingZeros (numbers : List Nat) : List Nat :=
  (numbers.reverse.dropWhile (fun n => decide (n = 0))).reverse

/-- Modelled from the spec: the key that the comparator of section 4.1 compares. After a
single leading `v` is stripped and the string is split on `.`, the leading numeric segments
are compared as numbers, missing trailing ones counting as zero; "non-numeric segments
compare lexicographically after numeric segments are exhausted": the segments that remain
are compared by their characters. The keys are ordered lexicographically. -/
def versionKey (version : String) : Lex (List Nat × List (List Nat)) :=
  toLex
    (dropTrailingZeros
      (((versionSegments (stripLeadingV version).data).takeWhile isNumericSegment).map
        segmentValue),
     ((versionSegments (stripLeadingV version).data).dropWhile isNumericSegment).map
        (fun segment => segment.map Char.toNat))

/-- Modelled from the spec: the comparator `compare(a, b)` of section 4.1, with the results
less, equal and greater. -/
def compareVersions (a b : String) : Ordering :=
  if versionKey a < versionKey b then Ordering.lt
  else if versionKey b < versionKey a then Ordering.gt
  else Ordering.eq

/-- Modelled from the spec: `parseVersionChangeString`, the `parseExactVersion` of the
table of section 4.1, which gives the empty string for "none": a bare version is returned
as it is, an exact pin `[a]` gives `a`, a closed interval `[a, b]` gives its lower bound
`a`, the text up to the first comma, and "any expression with an open parenthesis on
either side" gives none. -/
def parseVersionChangeString (fixVersion : String) : String :=
  if fixVersion.data.head? = some '(' ∨ fixVersion.data.getLast? = some ')' then ""
  else if fixVersion.data.head? = some '[' ∧ fixVersion.data.getLast? = some ']' then
    String.mk (((fixVersion.data.drop 1).dropLast).takeWhile (fun c => decide (c ≠ ',')))
  else fixVersion

/-! ## The rows of a scan and the rows that are new -/

/-- Modelled from the spec: a vulnerability, or a security violation, of a scan, with what
section 3 calls its payload (summary, severity, CVE identifiers) and the names of its
impacted components, in the order in which they are listed; the code that builds the rows
is in `scanpullrequest/scanpullrequest.go`, of which only the test file is among the
sources. -/
structure Finding where
  IssueId : String
  Summary : String
  Severity : String
  Cves : List String
  Components : List String
  deriving DecidableEq, Repr

/-- Modelled from the spec: a row, one impacted component of one finding (section 4.3,
step 2), with the fields that the tests read. -/
structure VulnerabilityOrViolationRow where
  IssueId : String
  Summary : String
  Severity : String
  Cves : List String
  ImpactedDependencyName : String
  deriving DecidableEq, Repr

/-- Modelled from the spec: the rows of one finding, "one row per impacted component"
(section 4.3, step 2). -/
def findingRows (finding : Finding) : List VulnerabilityOrViolationRow :=
  finding.Components.map (fun name =>
    { IssueId := finding.IssueId, Summary := finding.Summary, Severity := finding.Severity
      Cves := finding.Cves, ImpactedDependencyName := name })

/-- Modelled from the spec: `getScanVulnerabilitiesRows` on the findings of one kind of a
scan: the findings are taken "in their original order" and each is expanded "into one row
per impacted component" (section 4.3, step 2). -/
def getScanVulnerabilitiesRows (scan : List Finding) : List VulnerabilityOrViolationRow :=
  (scan.map findingRows).flatten

/-- Modelled from the spec: the identity of a row within its kind of finding, the "issue
identifier" and the "impacted component name" (section 3); "severity, summary text, and CVE
lists are payload, not identity". -/
def rowIdentity (row : VulnerabilityOrViolationRow) : String × String :=
  (row.IssueId, row.ImpactedDependencyName)

/-- Modelled from the spec: `createNewVulnerabilitiesRows` on the findings of one kind of
the baseline (target) and of the candidate (source), each kind being compared
"independently": the identity set of the baseline is built, and a candidate row "is new iff
its identity is absent from the baseline identity set"; the rows come "in the candidate
snapshot's original per-kind order" (section 4.3). -/
def createNewVulnerabilitiesRows (target source : List Finding) :
    List VulnerabilityOrViolationRow :=
  (getScanVulnerabilitiesRows source).filter (fun row =>
    decide (rowIdentity row ∉ (getScanVulnerabilitiesRows target).map rowIdentity))

/-- The finding `XRAY-1` of the tests, on the components `component-A` and `component-B`. -/
def findingXray1 : Finding :=
  ⟨"XRAY-1", "summary-1", "high", ["CVE-2023-1234"], ["component-A", "component-B"]⟩

/-- The finding `XRAY-2` of the tests, on the components `component-C` and `component-D`. -/
def findingXray2 : Finding :=
  ⟨"XRAY-2", "summary-2", "low", ["CVE-2023-4321"], ["component-C", "component-D"]⟩

/-- A coordinate that a round of the loop of `fillDependenciesMap` has nothing to add for:
it has no version, or its key is in the map and, when its version refers to a property, the
name of the property is in the properties list of its entry. -/
def recorded (m : DepMap) (dependency : gavCoordinate) : Prop :=
  dependency.Version = ""
    ∨ (depName dependency ∈ mapKeys m
      ∧ (stringsHasPrefix dependency.Version "$\x7b" →
          stringsTrim dependency.Version "$\x7b\x7d"
            ∈ mapProperties m (depName dependency)))

/-- The flag of the coordinate that the walk returns for a declaration: for a dependency,
whether it lies inside a dependency-management section; for a plugin, the flag its
coordinate held before the walk, which the walk of plugins does not write. -/
def walkFlag (d : Declaration) : Bool :=
  if d.isPlugin then d.gav.foundInDependencyManagement else d.inDependencyManagement

/-- A string that neither begins nor ends with white space. -/
def spaceTrimmed (s : String) : Prop :=
  (∀ c ∈ s.data.head?, unicodeIsSpace c = false)
    ∧ (∀ c ∈ s.data.getLast?, unicodeIsSpace c = false)

/-- The string `t` is `s` without the white space at its two ends: `s` is `t` between two
runs of white space, and `t` neither begins nor ends with white space. -/
def isSpaceTrimOf (t s : String) : Prop :=
  (∃ before after : List Char,
      s.data = before ++ t.data ++ after
      ∧ (∀ c ∈ before, unicodeIsSpace c = true) ∧ (∀ c ∈ after, unicodeIsSpace c = true))
    ∧ spaceTrimmed t

/-- An example world of a project with two modules in which the output of the reader
plugin is cut in the second line: the first line is the line of `/work/pom.xml`, the second
is not valid JSON. The rest is the example world. -/
def truncatedReaderEnv : Env Unit :=
  { exampleEnv examplePom none "" with
    CombinedOutput := fun w goals =>
      ⟨w, if goals = gavReaderGoals then
            examplePomLine ++ "\n" ++ "\x7b\"pomPath\":\"/work/module/po"
          else "", none⟩ }

/-- The example handler for a project whose dependencies are resolved from the repository
`maven-remote`: as `freshHandler`, with `depsRepo` set. -/
def repositoryHandler : MavenPackageHandler :=
  { freshHandler with depsRepo := "maven-remote" }

/-! ## Rows of source-code findings (modelled from the spec) -/

/-- Modelled from the spec: a row of a source-code finding, a secret or an
infrastructure-as-code finding, with "a file location (path, start line, start column,
snippet) instead of a component set" (section 3); the field names are those of the rows in
`TestCreateNewIacRows` and `TestCreateNewSecretRows`. -/
structure SourceCodeRow where
  Severity : String
  SeverityNumValue : Nat
  Finding : String
  File : String
  StartLine : Nat
  StartColumn : Nat
  Snippet : String
  deriving DecidableEq, Repr

/-- Modelled from the spec: the identity of a source-code row, "file+line+column"
(section 3). -/
def sourceCodeRowIdentity (row : SourceCodeRow) : String × Nat × Nat :=
  (row.File, row.StartLine, row.StartColumn)

/-- Modelled from the spec: step 1 of the algorithm of section 4.3, the identity set of the
baseline rows, built row by row. -/
def targetSourceCodeKeys : List (String × Nat × Nat) → List SourceCodeRow →
    List (String × Nat × Nat)
  | keys, [] => keys
  | keys, row :: rest =>
    targetSourceCodeKeys
      (if sourceCodeRowIdentity row ∈ keys then keys else keys ++ [sourceCodeRowIdentity row])
      rest

/-- Modelled from the spec: steps 2 and 3 of the algorithm of section 4.3, the candidate
rows taken "in original order", a row being "new iff its identity is absent from the
baseline identity set". -/
def addedSourceCodeRows (keys : List (String × Nat × Nat)) :
    List SourceCodeRow → List SourceCodeRow → List SourceCodeRow
  | added, [] => added
  | added, row :: rest =>
    addedSourceCodeRows keys
      (if sourceCodeRowIdentity row ∈ keys then added else added ++ [row]) rest

/-- Modelled from the spec: `createNewSourceCodeRows` on the rows of the baseline (target)
and of the candidate (source), section 4.3. -/
def createNewSourceCodeRows (target source : List SourceCodeRow) : List SourceCodeRow :=
  addedSourceCodeRows (targetSourceCodeKeys [] target) [] source

/-- The row that `TestCreateNewIacRows` has in its baseline. -/
def iacRowFile1 : SourceCodeRow := ⟨"High", 13, "", "file1", 1, 10, "aws violation"⟩

/-- The row that `TestCreateNewIacRows` has in its candidate. -/
def iacRowFile2 : SourceCodeRow := ⟨"Medium", 11, "", "file2", 2, 5, "gcp violation"⟩

/-! ## The name of the fix branch (modelled from the spec) -/

/-- Modelled from the spec: the "sanitizedPackageName" of section 4.5, the package name
with every colon replaced by an underscore. -/
def sanitizePackageName (impactedPackage : String) : String :=
  String.mk (impactedPackage.data.map (fun c => if c = ':' then '_' else c))

/-- Modelled from the spec: `GenerateFixBranchName` (section 4.5), the name
"frogbot-<sanitizedPackageName>-<hash>" and no error. The "deterministic content hash" is
not named by the spec: it is the parameter `hash`, applied to "the concatenation of
baseBranch, the original (unsanitized) impactedPackage, and fixVersion". -/
def GenerateFixBranchName (hash : String → String)
    (baseBranch impactedPackage fixVersion : String) : String × Option GoError :=
  ("frogbot-" ++ sanitizePackageName impactedPackage ++ "-"
      ++ hash (baseBranch ++ impactedPackage ++ fixVersion), none)

/-! ## A content hash -/

/-- The bytes of the UTF-8 encoding of a character. -/
def utf8Bytes (c : Char) : List Nat :=
  let n := c.toNat
  if n < 128 then [n]
  else if n < 2048 then [192 + n / 64, 128 + n % 64]
  else if n < 65536 then [224 + n / 4096, 128 + (n / 64) % 64, 128 + n % 64]
  else [240 + n / 262144, 128 + (n / 4096) % 64, 128 + (n / 64) % 64, 128 + n % 64]

/-- The bytes of a Go string: the UTF-8 encoding of its characters. -/
def stringBytes (s : String) : List Nat := (s.data.map utf8Bytes).flatten

/-- The table of the 64 additive constants of MD5 (RFC 1321). -/
def md5Constants : List Nat :=
  [
   3614090360, 3905402710, 606105819, 3250441966,
   4118548399, 1200080426, 2821735955, 4249261313,
   1770035416, 2336552879, 4294925233, 2304563134,
   1804603682, 4254626195, 2792965006, 1236535329,
   4129170786, 3225465664, 643717713, 3921069994,
   3593408605, 38016083, 3634488961, 3889429448,
   568446438, 3275163606, 4107603335, 1163531501,
   2850285829, 4243563512, 1735328473, 2368359562,
   4294588738, 2272392833, 1839030562, 4259657740,
   2763975236, 1272893353, 4139469664, 3200236656,
   681279174, 3936430074, 3572445317, 76029189,
   3654602809, 3873151461, 530742520, 3299628645,
   4096336452, 1126891415, 2878612391, 4237533241,
   1700485571, 2399980690, 4293915773, 2240044497,
   1873313359, 4264355552, 2734768916, 1309151649,
   4149444226, 3174756917, 718787259, 3951481745]

/-- The table of the 64 rotation amounts of MD5 (RFC 1321). -/
def md5Shifts : List Nat :=
  [
   7, 12, 17, 22, 7, 12, 17, 22, 7, 12, 17, 22, 7, 12, 17, 22,
   5, 9, 14, 20, 5, 9, 14, 20, 5, 9, 14, 20, 5, 9, 14, 20,
   4, 11, 16, 23, 4, 11, 16, 23, 4, 11, 16, 23, 4, 11, 16, 23,
   6, 10, 15, 21, 6, 10, 15, 21, 6, 10, 15, 21, 6, 10, 15, 21]

/-- Rotation of a 32-bit word to the left. -/
def rotateLeft32 (x s : Nat) : Nat :=
  ((x <<< s) ||| (x >>> (32 - s))) % 4294967296

/-- The `n` bytes of the little-endian form of `x`. -/
def littleEndian : Nat → Nat → List Nat
  | 0, _ => []
  | n + 1, x => x % 256 :: littleEndian n (x / 256)

/-- The number that bytes write in little-endian form. -/
def fromLittleEndian : List Nat → Nat
  | [] => 0
  | b :: rest => b + 256 * fromLittleEndian rest

/-- The message of MD5 with its padding: the bit 1, zeros up to 56 modulo 64 bytes, and the
length in bits on 8 bytes. -/
def md5Pad (message : List Nat) : List Nat :=
  message ++ [128] ++ List.replicate ((119 - message.length % 64) % 64) 0
    ++ littleEndian 8 (8 * message.length)

/-- The 32-bit words of a run of bytes, four bytes each; `n` is the number of words. -/
def md5Words : Nat → List Nat → List Nat
  | 0, _ => []
  | n + 1, bytes => fromLittleEndian (bytes.take 4) :: md5Words n (bytes.drop 4)

/-- The state of MD5: four 32-bit words. -/
structure Md5State where
  a : Nat
  b : Nat
  c : Nat
  d : Nat
  deriving DecidableEq, Repr

/-- One of the 64 operations of MD5 on a block of 16 words. -/
def md5Step (block : List Nat) (st : Md5State) (i : Nat) : Md5State :=
  let notB := 4294967295 - st.b
  let notD := 4294967295 - st.d
  let f :=
    if i < 16 then (st.b &&& st.c) ||| (notB &&& st.d)
    else if i < 32 then (st.d &&& st.b) ||| (notD &&& st.c)
    else if i < 48 then st.b ^^^ st.c ^^^ st.d
    else st.c ^^^ (st.b ||| notD)
  let g :=
    if i < 16 then i
    else if i < 32 then (5 * i + 1) % 16
    else if i < 48 then (3 * i + 5) % 16
    else (7 * i) % 16
  let sum := (f + st.a + md5Constants.getD i 0 + block.getD g 0) % 4294967296
  { a := st.d, d := st.c, c := st.b
    b := (st.b + rotateLeft32 sum (md5Shifts.getD i 0)) % 4294967296 }

/-- The 64 operations on one block, and the addition of the state before them. -/
def md5Block (st : Md5State) (block : List Nat) : Md5State :=
  let after := (List.range 64).foldl (md5Step block) st
  { a := (st.a + after.a) % 4294967296, b := (st.b + after.b) % 4294967296
    c := (st.c + after.c) % 4294967296, d := (st.d + after.d) % 4294967296 }

/-- The blocks of a padded message, one after the other; `n` is the number of blocks. -/
def md5Blocks : Nat → List Nat → Md5State → Md5State
  | 0, _, st => st
  | n + 1, bytes, st => md5Blocks n (bytes.drop 64) (md5Block st (md5Words 16 (bytes.take 64)))

/-- A hexadecimal digit. -/
def hexDigit (n : Nat) : Char := "0123456789abcdef".data.getD n '0'

/-- The call `hex.EncodeToString` on bytes. -/
def hexEncode (bytes : List Nat) : String :=
  String.mk ((bytes.map (fun b => [hexDigit (b / 16), hexDigit (b % 16)])).flatten)

/-- The Go `md5.Sum` followed by `hex.EncodeToString`: the MD5 digest of a run of bytes
(RFC 1321), in hexadecimal. -/
def md5Hex (message : List Nat) : String :=
  let padded := md5Pad message
  let st := md5Blocks (padded.length / 64) padded
    { a := 1732584193, b := 4023233417, c := 2562383102, d := 271733878 }
  hexEncode (littleEndian 4 st.a ++ littleEndian 4 st.b ++ littleEndian 4 st.c
    ++ littleEndian 4 st.d)

/-- Modelled from the spec: a "deterministic content hash" for section 4.5, which the spec
does not name: the MD5 digest, in hexadecimal, of `frogbot` followed by the text. With it
the three names that `TestGenerateFixBranchName` expects come out. -/
def contentHash (text : String) : String := md5Hex (stringBytes ("frogbot" ++ text))

/-! # Properties -/

/-! ## The handler of unsupported technologies -/

/-- C1, as stated, fails: for the fix target of package `zlib`, fixed version `1.3`, in the
technology `Conan`, the error returned by `UnsupportedPackageHandler.UpdateDependency` is
not an `ErrUnsupportedFix`, whatever package name, version and reason it would carry. -/
theorem unsupported_updateDependency_is_not_errUnsupportedFix :
    ¬ ∃ PackageName FixedVersion ErrorType,
      UnsupportedPackageHandler.UpdateDependency (fun technology => technology)
          ⟨"Conan", "zlib", "1.3"⟩
        = some (GoError.ErrUnsupportedFix PackageName FixedVersion ErrorType) := by
  rintro ⟨PackageName, FixedVersion, ErrorType, h⟩
  simp [UnsupportedPackageHandler.UpdateDependency] at h

/-- C1, amended: for every fix target, `UnsupportedPackageHandler.UpdateDependency` returns
a non-nil error that is a plain message, the fixed text followed by the formal name of the
technology; it is never an `ErrUnsupportedFix` and never nil. -/
theorem unsupported_updateDependency_plain_error (ToFormal : String → String)
    (vulnDetails : VulnerabilityDetails) :
    UnsupportedPackageHandler.UpdateDependency ToFormal vulnDetails
        = some (GoError.errorString
            ("frogbot currently does not support opening a pull request that fixes vulnerabilities in "
              ++ ToFormal vulnDetails.Technology))
      ∧ UnsupportedPackageHandler.UpdateDependency ToFormal vulnDetails ≠ none
      ∧ ∀ PackageName FixedVersion ErrorType,
          UnsupportedPackageHandler.UpdateDependency ToFormal vulnDetails
            ≠ some (GoError.ErrUnsupportedFix PackageName FixedVersion ErrorType) := by
  refine ⟨rfl, ?_, ?_⟩
  · simp [UnsupportedPackageHandler.UpdateDependency]
  · intro PackageName FixedVersion ErrorType
    simp [UnsupportedPackageHandler.UpdateDependency]

/-! ## Failures of a Maven run -/

/-- The error of `runMvnCommand` when the run it starts fails. -/
theorem runMvnCommand_err_of_failure {W : Type} (env : Env W) (mph : MavenPackageHandler)
    (sys : Sys W) (goals : List String) (failure : String)
    (hfail : mvnInvocationFailure env mph sys goals = some failure) :
    (runMvnCommand env mph sys goals).err
      = some (GoError.errorString (failedRunningCommand goals failure)) := by
  unfold mvnInvocationFailure at hfail
  unfold runMvnCommand
  by_cases hrepo : mph.depsRepo = ""
  · simp only [hrepo, if_true] at hfail ⊢
    simp only [hfail]
  · simp only [hrepo, if_false] at hfail ⊢
    cases hcfg : env.ReadMavenConfig sys.world mph.depsRepo mph.ServerDetails with
    | some e => simp [hcfg] at hfail
    | none =>
      simp only [hcfg] at hfail ⊢
      simp only [hfail]

/-- C3, as stated, fails: a Maven run for the goals `-q validate` that prints
`[ERROR] BUILD FAILURE` and fails with `exit status 1` makes `runMvnCommand` return an error
whose message does not include the printed output. -/
theorem runMvnCommand_error_omits_output :
    (exampleEnv examplePom (some "exit status 1") "[ERROR] BUILD FAILURE").CombinedOutput
        freshSys.world ["-q", "validate"]
      = ⟨(), "[ERROR] BUILD FAILURE", some "exit status 1"⟩
    ∧ (runMvnCommand (exampleEnv examplePom (some "exit status 1") "[ERROR] BUILD FAILURE")
        freshHandler freshSys ["-q", "validate"]).err
      = some (GoError.errorString "failed running command 'mvn -q validate': exit status 1")
    ∧ ¬ strContains "failed running command 'mvn -q validate': exit status 1"
        "[ERROR] BUILD FAILURE" := by
  refine ⟨rfl, by decide, by decide⟩

/-- C3, amended: for every list of goals, when the Maven run fails the error returned by
`runMvnCommand` has the message `failed running command 'mvn GOALS': FAILURE`, built from
the goals and the failure text alone; the combined output is not put in the message, and
with an empty `depsRepo` a non-empty output is written to the log at level Info. -/
theorem runMvnCommand_failure_message_and_log {W : Type} (env : Env W)
    (mph : MavenPackageHandler) (sys : Sys W) (goals : List String) (failure : String)
    (hfail : mvnInvocationFailure env mph sys goals = some failure) :
    (runMvnCommand env mph sys goals).err
        = some (GoError.errorString
            ("failed running command 'mvn " ++ stringsJoin goals " " ++ "': " ++ failure))
      ∧ (mph.depsRepo = "" → (env.CombinedOutput sys.world goals).output ≠ "" →
          (LogLevel.Info, (env.CombinedOutput sys.world goals).output)
            ∈ (runMvnCommand env mph sys goals).sys.logged) := by
  refine ⟨runMvnCommand_err_of_failure env mph sys goals failure hfail, ?_⟩
  intro hrepo hout
  unfold mvnInvocationFailure at hfail
  simp only [hrepo, if_true] at hfail
  have hlen : (env.CombinedOutput sys.world goals).output.length > 0 := by
    rcases hd : (env.CombinedOutput sys.world goals).output with ⟨chars⟩
    rw [hd] at hout
    cases chars with
    | nil => exact absurd rfl hout
    | cons c cs => simp [String.length]
  unfold runMvnCommand
  simp only [hrepo, if_true, hfail, hlen]
  simp

/-- C3, amended, at an example: the failing run of `-q validate` returns the message built
from the goals and `exit status 1`, and logs the printed output. -/
theorem runMvnCommand_failure_message_and_log_witness :
    (runMvnCommand (exampleEnv examplePom (some "exit status 1") "[ERROR] BUILD FAILURE")
        freshHandler freshSys ["-q", "validate"]).err
        = some (GoError.errorString
            ("failed running command 'mvn " ++ stringsJoin ["-q", "validate"] " " ++ "': "
              ++ "exit status 1"))
      ∧ (LogLevel.Info,
          ((exampleEnv examplePom (some "exit status 1") "[ERROR] BUILD FAILURE").CombinedOutput
            freshSys.world ["-q", "validate"]).output)
          ∈ (runMvnCommand (exampleEnv examplePom (some "exit status 1") "[ERROR] BUILD FAILURE")
              freshHandler freshSys ["-q", "validate"]).sys.logged :=
  ⟨(runMvnCommand_failure_message_and_log
      (exampleEnv examplePom (some "exit status 1") "[ERROR] BUILD FAILURE")
      freshHandler freshSys ["-q", "validate"] "exit status 1" (by decide)).1,
   (runMvnCommand_failure_message_and_log
      (exampleEnv examplePom (some "exit status 1") "[ERROR] BUILD FAILURE")
      freshHandler freshSys ["-q", "validate"] "exit status 1" (by decide)).2
      (by decide) (by decide)⟩

/-- C4: for every list of goals, when the Maven run fails, `runMvnCommand` returns a
non-nil error whose message contains the command line attempted, `mvn` followed by the
goals joined by single spaces, and contains the text of the underlying failure. -/
theorem runMvnCommand_failure_names_command {W : Type} (env : Env W)
    (mph : MavenPackageHandler) (sys : Sys W) (goals : List String) (failure : String)
    (hfail : mvnInvocationFailure env mph sys goals = some failure) :
    (runMvnCommand env mph sys goals).err ≠ none
      ∧ ∃ message, (runMvnCommand env mph sys goals).err = some (GoError.errorString message)
          ∧ strContains message ("mvn " ++ stringsJoin goals " ")
          ∧ strContains message failure := by
  have herr := runMvnCommand_err_of_failure env mph sys goals failure hfail
  refine ⟨by simp [herr], failedRunningCommand goals failure, herr, ?_, ?_⟩
  · refine ⟨"failed running command '".data, ("': " ++ failure).data, ?_⟩
    simp [failedRunningCommand, String.data_append]
  · refine ⟨("failed running command 'mvn " ++ stringsJoin goals " " ++ "': ").data, [], ?_⟩
    simp [failedRunningCommand, String.data_append]

/-- C4 at an example: the failing run of `-q validate`. -/
theorem runMvnCommand_failure_names_command_witness :
    (runMvnCommand (exampleEnv examplePom (some "exit status 1") "[ERROR] BUILD FAILURE")
        freshHandler freshSys ["-q", "validate"]).err ≠ none
      ∧ ∃ message,
          (runMvnCommand (exampleEnv examplePom (some "exit status 1") "[ERROR] BUILD FAILURE")
            freshHandler freshSys ["-q", "validate"]).err = some (GoError.errorString message)
          ∧ strContains message ("mvn " ++ stringsJoin ["-q", "validate"] " ")
          ∧ strContains message "exit status 1" :=
  runMvnCommand_failure_names_command
    (exampleEnv examplePom (some "exit status 1") "[ERROR] BUILD FAILURE")
    freshHandler freshSys ["-q", "validate"] "exit status 1" (by decide)

/-! ## The commands a call issues -/

/-- A call of `runMvnCommand` issues at most one command, the one for its goals. -/
theorem runMvnCommand_issued {W : Type} (env : Env W) (mph : MavenPackageHandler)
    (sys : Sys W) (goals : List String) :
    (runMvnCommand env mph sys goals).sys.issued = sys.issued
      ∨ (runMvnCommand env mph sys goals).sys.issued = sys.issued ++ [goals] := by
  unfold runMvnCommand
  by_cases hrepo : mph.depsRepo = ""
  · simp only [hrepo, if_true]
    right
    cases (env.CombinedOutput sys.world goals).err with
    | none => rfl
    | some failure =>
      simp only
      split <;> rfl
  · simp only [hrepo, if_false]
    cases env.ReadMavenConfig sys.world mph.depsRepo mph.ServerDetails with
    | some failure => left; rfl
    | none =>
      right
      cases (env.RunMvn sys.world mph.depsRepo mph.ServerDetails goals).err with
      | none => rfl
      | some failure =>
        simp only
        split <;> rfl

/-- The commands issued by a call of `runMvnCommand`, as a list appended to the trace. -/
theorem runMvnCommand_issued_append {W : Type} (env : Env W) (mph : MavenPackageHandler)
    (sys : Sys W) (goals : List String) :
    ∃ new, (runMvnCommand env mph sys goals).sys.issued = sys.issued ++ new
      ∧ ∀ g ∈ new, g = goals := by
  rcases runMvnCommand_issued env mph sys goals with h | h
  · exact ⟨[], by simp [h], by simp⟩
  · exact ⟨[goals], h, by simp⟩

/-- The body of `installMavenGavReader` issues nothing but the install command. -/
theorem installMavenGavReaderBody_issued {W : Type} (env : Env W)
    (mph : MavenPackageHandler) (sys : Sys W) (file : String) :
    ∃ new, (installMavenGavReaderBody env mph sys file).1.sys.issued = sys.issued ++ new
      ∧ ∀ g ∈ new, g = installProperties file := by
  unfold installMavenGavReaderBody
  cases env.Getwd sys.world with
  | error failure => exact ⟨[], by simp, by simp⟩
  | ok currentWd =>
    simp only
    cases (env.Chdir sys.world (env.pathDir file)).err with
    | some failure => exact ⟨[], by simp, by simp⟩
    | none =>
      simp only
      cases (env.Write (env.Chdir sys.world (env.pathDir file)).world file).err with
      | some failure => exact ⟨[], by simp, by simp⟩
      | none =>
        simp only
        obtain ⟨new, hnew, hall⟩ := runMvnCommand_issued_append env mph
          { sys with world := (env.Write (env.Chdir sys.world (env.pathDir file)).world file).world }
          (installProperties file)
        refine ⟨new, ?_, hall⟩
        split <;> exact hnew

/-- A call of `installMavenGavReader` issues nothing but an install command. -/
theorem installMavenGavReader_issued {W : Type} (env : Env W) (mph : MavenPackageHandler)
    (sys : Sys W) :
    ∃ new, (installMavenGavReader env mph sys).sys.issued = sys.issued ++ new
      ∧ ∀ g ∈ new, ∃ file, g = installProperties file := by
  unfold installMavenGavReader
  cases hin : mph.isMavenGavReaderInstalled with
  | true => exact ⟨[], by simp, by simp⟩
  | false =>
    simp only [Bool.false_eq_true, if_false]
    rcases hct : env.CreateTemp sys.world ("*-" ++ mavenGavReader) with ⟨w0, failure | file⟩
    · exact ⟨[], by simp, by simp⟩
    · simp only
      obtain ⟨new, hnew, hall⟩ := installMavenGavReaderBody_issued env mph
        { sys with world := w0 } file
      refine ⟨new, ?_, fun g hg => ⟨file, hall g hg⟩⟩
      rw [← hnew]
      split <;> rfl

/-- A call of `getProjectPoms` issues nothing but the command that lists the poms. -/
theorem getProjectPoms_issued {W : Type} (env : Env W) (mph : MavenPackageHandler)
    (sys : Sys W) :
    ∃ new, (getProjectPoms env mph sys).sys.issued = sys.issued ++ new
      ∧ ∀ g ∈ new, g = gavReaderGoals := by
  unfold getProjectPoms
  by_cases hlen : mph.pomPaths.length > 0
  · simp only [hlen, if_true]
    exact ⟨[], by simp, by simp⟩
  · simp only [hlen, if_false]
    obtain ⟨new, hnew, hall⟩ := runMvnCommand_issued_append env mph sys gavReaderGoals
    refine ⟨new, ?_, hall⟩
    rw [← hnew]
    split
    · rfl
    · split <;> rfl

/-- The install command is not a manifest-rewrite command. -/
theorem installProperties_not_rewrite (file : String) :
    ¬ isRewriteCommand (installProperties file) := by
  have h1 : ¬ (useDepVersionGoal = "-Dfile=" ++ file) := by
    intro h
    have := congrArg String.data h
    simp [useDepVersionGoal, String.data_append] at this
  have h2 : ¬ (setPropertyGoal = "-Dfile=" ++ file) := by
    intro h
    have := congrArg String.data h
    simp [setPropertyGoal, String.data_append] at this
  unfold isRewriteCommand installProperties
  simp only [List.mem_cons, List.mem_singleton, List.not_mem_nil, or_false]
  rintro ((h | h) | (h | h))
  · exact absurd h (by decide)
  · exact h1 h
  · exact absurd h (by decide)
  · exact h2 h

/-- The first two steps of `UpdateDependency` issue no manifest-rewrite command. -/
theorem afterDiscovery_issued {W : Type} (env : Env W) (mph : MavenPackageHandler)
    (sys : Sys W) :
    ∃ new, (afterDiscovery env mph sys).sys.issued = sys.issued ++ new
      ∧ ∀ g ∈ new, ¬ isRewriteCommand g := by
  obtain ⟨new1, h1, hall1⟩ := installMavenGavReader_issued env mph sys
  obtain ⟨new2, h2, hall2⟩ := getProjectPoms_issued env (installMavenGavReader env mph sys).mph
    (installMavenGavReader env mph sys).sys
  refine ⟨new1 ++ new2, ?_, ?_⟩
  · unfold afterDiscovery
    rw [h2, h1, List.append_assoc]
  · intro g hg
    rcases List.mem_append.mp hg with hg | hg
    · obtain ⟨file, hfile⟩ := hall1 g hg
      rw [hfile]
      exact installProperties_not_rewrite file
    · rw [hall2 g hg]
      decide

/-! ## The steps of `UpdateDependency` -/

/-- When the first two steps succeed and the pom loop stops on an error, `UpdateDependency`
returns that error. -/
theorem updateDependency_of_fill_error {W : Type} (env : Env W) (mph : MavenPackageHandler)
    (sys : Sys W) (vulnDetails : VulnerabilityDetails) (mph3 : MavenPackageHandler)
    (err : GoError)
    (hinstall : (installMavenGavReader env mph sys).err = none)
    (hpoms : (afterDiscovery env mph sys).err = none)
    (hfill : fillDependenciesMapRange env (afterDiscovery env mph sys).sys.world
      (beforeFill env mph sys) (beforeFill env mph sys).pomPaths = .returned (mph3, some err)) :
    MavenPackageHandler.UpdateDependency env mph sys vulnDetails
      = .returned { mph := mph3, sys := (afterDiscovery env mph sys).sys, err := some err } := by
  unfold afterDiscovery at hpoms
  unfold beforeFill afterDiscovery at hfill
  unfold MavenPackageHandler.UpdateDependency
  simp only [hinstall, hpoms, hfill, afterDiscovery]

/-- When the first two steps succeed and every pom is read into the map, `UpdateDependency`
looks the impacted dependency up and rewrites its properties or its version. -/
theorem updateDependency_of_fill {W : Type} (env : Env W) (mph : MavenPackageHandler)
    (sys : Sys W) (vulnDetails : VulnerabilityDetails) (mph3 : MavenPackageHandler)
    (hinstall : (installMavenGavReader env mph sys).err = none)
    (hpoms : (afterDiscovery env mph sys).err = none)
    (hfill : fillDependenciesMapRange env (afterDiscovery env mph sys).sys.world
      (beforeFill env mph sys) (beforeFill env mph sys).pomPaths = .returned (mph3, none)) :
    MavenPackageHandler.UpdateDependency env mph sys vulnDetails
      = match handlerMapGet mph3 vulnDetails.ImpactedDependencyName with
        | none =>
          .returned
            { mph := mph3, sys := (afterDiscovery env mph sys).sys
              err := some (.ErrUnsupportedFix vulnDetails.ImpactedDependencyName
                vulnDetails.SuggestedFixedVersion
                UnsupportedErrorType.IndirectDependencyFixNotSupported) }
        | some depDetails =>
          if depDetails.properties.length > 0 then
            .returned (updateProperties env mph3 (afterDiscovery env mph sys).sys depDetails
              vulnDetails.SuggestedFixedVersion)
          else
            .returned (updatePackageVersion env mph3 (afterDiscovery env mph sys).sys
              vulnDetails.ImpactedDependencyName vulnDetails.SuggestedFixedVersion
              depDetails.foundInDependencyManagement) := by
  unfold afterDiscovery at hpoms
  unfold beforeFill afterDiscovery at hfill
  unfold MavenPackageHandler.UpdateDependency
  simp only [hinstall, hpoms, hfill, afterDiscovery]

/-- The pom loop over `good ++ rest`, when it passes `good` without error, goes on with
`rest` from the handler reached. -/
theorem fillDependenciesMapRange_append {W : Type} (env : Env W) (w : W)
    (good rest : List pomPath) :
    ∀ (mph mph1 : MavenPackageHandler),
      fillDependenciesMapRange env w mph good = .returned (mph1, none) →
      fillDependenciesMapRange env w mph (good ++ rest)
        = fillDependenciesMapRange env w mph1 rest := by
  induction good with
  | nil =>
    intro mph mph1 h
    simp only [fillDependenciesMapRange, Outcome.returned.injEq, Prod.mk.injEq, and_true] at h
    simp [h]
  | cons pp good ih =>
    intro mph mph1 h
    simp only [List.cons_append, fillDependenciesMapRange] at h ⊢
    cases hstep : fillDependenciesMap env mph w pp.PomPath with
    | panicked reason => simp [hstep] at h
    | returned r =>
      obtain ⟨mph2, e⟩ := r
      cases e with
      | some err => simp [hstep] at h
      | none =>
        simp only [hstep] at h ⊢
        exact ih mph2 mph1 h

/-- A pom that is read but not parsed makes `fillDependenciesMap` return the error of the
parser as it is, and leave the handler as it was. -/
theorem fillDependenciesMap_of_parse_error {W : Type} (env : Env W)
    (mph : MavenPackageHandler) (w : W) (pomPath content failure : String)
    (hread : env.ReadFile w pomPath = .ok content)
    (hparse : env.xmlUnmarshal content = .error failure) :
    fillDependenciesMap env mph w pomPath
      = .returned (mph, some (GoError.errorString failure)) := by
  unfold fillDependenciesMap getMavenDependencies
  simp only [hread, hparse]

/-! ## Refusing a dependency that no pom declares -/

/-- C2: when the installation of the reader plugin, the discovery of the poms and the
reading of every pom succeed, and the impacted dependency is not a key of the filled map,
`UpdateDependency` returns an `ErrUnsupportedFix` with the impacted name, the suggested
fixed version and the reason `IndirectDependencyFixNotSupported`, and the commands issued
by the call include no `use-dep-version` and no `set-property` command. -/
theorem updateDependency_refuses_undeclared {W : Type} (env : Env W)
    (mph : MavenPackageHandler) (sys : Sys W) (vulnDetails : VulnerabilityDetails)
    (mph3 : MavenPackageHandler)
    (hinstall : (installMavenGavReader env mph sys).err = none)
    (hpoms : (afterDiscovery env mph sys).err = none)
    (hfill : fillDependenciesMapRange env (afterDiscovery env mph sys).sys.world
      (beforeFill env mph sys) (beforeFill env mph sys).pomPaths = .returned (mph3, none))
    (hkey : handlerMapGet mph3 vulnDetails.ImpactedDependencyName = none) :
    ∃ final : Ret W,
      MavenPackageHandler.UpdateDependency env mph sys vulnDetails = .returned final
      ∧ final.err = some (GoError.ErrUnsupportedFix vulnDetails.ImpactedDependencyName
          vulnDetails.SuggestedFixedVersion
          UnsupportedErrorType.IndirectDependencyFixNotSupported)
      ∧ ∃ new, final.sys.issued = sys.issued ++ new ∧ ∀ goals ∈ new, ¬ isRewriteCommand goals := by
  refine ⟨{ mph := mph3, sys := (afterDiscovery env mph sys).sys
            err := some (GoError.ErrUnsupportedFix vulnDetails.ImpactedDependencyName
              vulnDetails.SuggestedFixedVersion
              UnsupportedErrorType.IndirectDependencyFixNotSupported) },
    ?_, rfl, afterDiscovery_issued env mph sys⟩
  rw [updateDependency_of_fill env mph sys vulnDetails mph3 hinstall hpoms hfill, hkey]

/-- C2 at an example: the dependency `x:y`, which the example pom does not declare. -/
theorem updateDependency_refuses_undeclared_witness :
    ∃ final : Ret Unit,
      MavenPackageHandler.UpdateDependency (exampleEnv examplePom none "") freshHandler freshSys
          ⟨"Maven", "x:y", "4.13"⟩ = .returned final
      ∧ final.err = some (GoError.ErrUnsupportedFix "x:y" "4.13"
          UnsupportedErrorType.IndirectDependencyFixNotSupported)
      ∧ ∃ new, final.sys.issued = freshSys.issued ++ new
          ∧ ∀ goals ∈ new, ¬ isRewriteCommand goals :=
  updateDependency_refuses_undeclared (exampleEnv examplePom none "") freshHandler freshSys
    ⟨"Maven", "x:y", "4.13"⟩ exampleFilledHandler rfl rfl rfl rfl

/-! ## A pom that cannot be parsed -/

/-- C5, as stated, fails: when the pom `/work/pom.xml` is read as the empty text, which the
decoder rejects with `EOF`, the error returned by `fillDependenciesMap`, and by
`UpdateDependency`, is `EOF`, which does not contain the path of the pom. -/
theorem fillDependenciesMap_parse_error_omits_path :
    (exampleEnv "" none "").ReadFile () "/work/pom.xml" = .ok ""
    ∧ (exampleEnv "" none "").xmlUnmarshal "" = .error "EOF"
    ∧ fillDependenciesMap (exampleEnv "" none "") freshHandler () "/work/pom.xml"
        = .returned (freshHandler, some (GoError.errorString "EOF"))
    ∧ MavenPackageHandler.UpdateDependency (exampleEnv "" none "") freshHandler freshSys
          ⟨"Maven", "junit:junit", "4.13"⟩
        = .returned
            { mph := { exampleFilledHandler with mavenDepToPropertyMap := some [] }
              sys := (afterDiscovery (exampleEnv "" none "") freshHandler freshSys).sys
              err := some (GoError.errorString "EOF") }
    ∧ ¬ strContains "EOF" "/work/pom.xml" := by
  refine ⟨rfl, rfl, by decide, by decide, by decide⟩

/-- C5, amended: if the file at a pom path can be read but its content cannot be parsed,
`fillDependenciesMap` returns the error of the parser unchanged, and so does
`UpdateDependency` when the poms listed before that one are read without error; the
handler adds nothing, the path included, to the message of the parser. -/
theorem parse_error_is_returned_unchanged {W : Type} (env : Env W)
    (path content failure : String)
    (hparse : env.xmlUnmarshal content = .error failure) :
    (∀ (mph : MavenPackageHandler) (w : W), env.ReadFile w path = .ok content →
        fillDependenciesMap env mph w path
          = .returned (mph, some (GoError.errorString failure)))
    ∧ (∀ (mph : MavenPackageHandler) (sys : Sys W) (vulnDetails : VulnerabilityDetails)
        (good rest : List pomPath) (mph3 : MavenPackageHandler),
        (installMavenGavReader env mph sys).err = none →
        (afterDiscovery env mph sys).err = none →
        (beforeFill env mph sys).pomPaths = good ++ ⟨path⟩ :: rest →
        fillDependenciesMapRange env (afterDiscovery env mph sys).sys.world
          (beforeFill env mph sys) good = .returned (mph3, none) →
        env.ReadFile (afterDiscovery env mph sys).sys.world path = .ok content →
        MavenPackageHandler.UpdateDependency env mph sys vulnDetails
          = .returned
              { mph := mph3, sys := (afterDiscovery env mph sys).sys
                err := some (GoError.errorString failure) }) := by
  refine ⟨fun mph w hread =>
    fillDependenciesMap_of_parse_error env mph w path content failure hread hparse, ?_⟩
  intro mph sys vulnDetails good rest mph3 hinstall hpoms hpaths hgood hread
  apply updateDependency_of_fill_error env mph sys vulnDetails mph3 _ hinstall hpoms
  rw [hpaths, fillDependenciesMapRange_append env _ good _ _ mph3 hgood]
  simp only [fillDependenciesMapRange]
  rw [fillDependenciesMap_of_parse_error env mph3 _ path content failure hread hparse]

/-- C5, amended, at an example: the pom `/work/pom.xml` read as the empty text. -/
theorem parse_error_is_returned_unchanged_witness :
    fillDependenciesMap (exampleEnv "" none "") freshHandler () "/work/pom.xml"
        = .returned (freshHandler, some (GoError.errorString "EOF"))
    ∧ MavenPackageHandler.UpdateDependency (exampleEnv "" none "") freshHandler freshSys
          ⟨"Maven", "junit:junit", "4.13"⟩
        = .returned
            { mph := { exampleFilledHandler with mavenDepToPropertyMap := some [] }
              sys := (afterDiscovery (exampleEnv "" none "") freshHandler freshSys).sys
              err := some (GoError.errorString "EOF") } :=
  ⟨(parse_error_is_returned_unchanged (exampleEnv "" none "") "/work/pom.xml" "" "EOF"
      rfl).1 freshHandler () rfl,
   (parse_error_is_returned_unchanged (exampleEnv "" none "") "/work/pom.xml" "" "EOF"
      rfl).2 freshHandler freshSys ⟨"Maven", "junit:junit", "4.13"⟩ [] []
      { exampleFilledHandler with mavenDepToPropertyMap := some [] }
      rfl rfl rfl rfl rfl⟩

/-! ## The rewrite commands -/

/-- A call of `runMvnCommand` that returns no error has issued the command for its goals. -/
theorem runMvnCommand_issued_of_success {W : Type} (env : Env W) (mph : MavenPackageHandler)
    (sys : Sys W) (goals : List String)
    (hok : (runMvnCommand env mph sys goals).err = none) :
    (runMvnCommand env mph sys goals).sys.issued = sys.issued ++ [goals] := by
  unfold runMvnCommand at hok ⊢
  by_cases hrepo : mph.depsRepo = ""
  · simp only [hrepo, if_true] at hok ⊢
    cases hrun : (env.CombinedOutput sys.world goals).err with
    | none => simp only [hrun]
    | some failure => simp [hrun] at hok
  · simp only [hrepo, if_false] at hok ⊢
    cases hcfg : env.ReadMavenConfig sys.world mph.depsRepo mph.ServerDetails with
    | some failure => simp [hcfg] at hok
    | none =>
      simp only [hcfg] at hok ⊢
      cases hrun : (env.RunMvn sys.world mph.depsRepo mph.ServerDetails goals).err with
      | none => simp only [hrun]
      | some failure => simp [hrun] at hok

/-- A call of `runMvnCommand` that starts a run (no repository, or the configuration is
read) has issued the command for its goals, whatever the run gives. -/
theorem runMvnCommand_issued_of_start {W : Type} (env : Env W) (mph : MavenPackageHandler)
    (sys : Sys W) (goals : List String)
    (hstart : mph.depsRepo = ""
      ∨ env.ReadMavenConfig sys.world mph.depsRepo mph.ServerDetails = none) :
    (runMvnCommand env mph sys goals).sys.issued = sys.issued ++ [goals] := by
  unfold runMvnCommand
  by_cases hrepo : mph.depsRepo = ""
  · simp only [hrepo, if_true]
    cases (env.CombinedOutput sys.world goals).err with
    | none => rfl
    | some failure =>
      simp only
      split <;> rfl
  · simp only [hrepo, if_false]
    rcases hstart with h | h
    · exact absurd h hrepo
    · simp only [h]
      cases (env.RunMvn sys.world mph.depsRepo mph.ServerDetails goals).err with
      | none => rfl
      | some failure =>
        simp only
        split <;> rfl

/-- The loop of `updateProperties` issues nothing but commands built by
`updatePropertyArgs` for properties of the list. -/
theorem updatePropertiesRange_issued {W : Type} (env : Env W) (mph : MavenPackageHandler)
    (depDetails : pomDependencyDetails) (fixedVersion : String) (properties : List String) :
    ∀ sys : Sys W,
      ∃ new, (updatePropertiesRange env mph depDetails fixedVersion sys properties).sys.issued
          = sys.issued ++ new
        ∧ ∀ goals ∈ new, ∃ property ∈ properties,
            goals = updatePropertyArgs depDetails fixedVersion property := by
  induction properties with
  | nil => intro sys; exact ⟨[], by simp [updatePropertiesRange], by simp⟩
  | cons property rest ih =>
    intro sys
    simp only [updatePropertiesRange]
    obtain ⟨new1, h1, hall1⟩ := runMvnCommand_issued_append env mph
      { sys with
        logged := sys.logged ++ [(LogLevel.Debug, "Running '" ++
          ("mvn " ++ stringsJoin (updatePropertyArgs depDetails fixedVersion property) " ")
          ++ "'")] }
      (updatePropertyArgs depDetails fixedVersion property)
    split
    · refine ⟨new1, h1, fun goals hg => ⟨property, by simp, hall1 goals hg⟩⟩
    · obtain ⟨new2, h2, hall2⟩ := ih (runMvnCommand env mph
        { sys with
          logged := sys.logged ++ [(LogLevel.Debug, "Running '" ++
            ("mvn " ++ stringsJoin (updatePropertyArgs depDetails fixedVersion property) " ")
            ++ "'")] }
        (updatePropertyArgs depDetails fixedVersion property)).sys
      refine ⟨new1 ++ new2, ?_, ?_⟩
      · rw [h2, h1, List.append_assoc]
      · intro goals hg
        rcases List.mem_append.mp hg with hg | hg
        · exact ⟨property, by simp, hall1 goals hg⟩
        · obtain ⟨q, hq, hgoals⟩ := hall2 goals hg
          exact ⟨q, List.mem_cons_of_mem _ hq, hgoals⟩

/-- The arguments that carry the package name and the fixed version are not section
switches. -/
theorem includes_depVersion_not_switch (tail : String) :
    ("-Dincludes=" ++ tail ≠ "-DprocessDependencies=true"
      ∧ "-Dincludes=" ++ tail ≠ "-DprocessDependencyManagement=true")
    ∧ ("-DdepVersion=" ++ tail ≠ "-DprocessDependencies=true"
      ∧ "-DdepVersion=" ++ tail ≠ "-DprocessDependencyManagement=true") := by
  refine ⟨⟨?_, ?_⟩, ⟨?_, ?_⟩⟩ <;> intro h <;> have := congrArg String.data h <;>
    simp [String.data_append] at this

/-- C7: for every package name, fixed version and flag `d`, the argument list built by
`updatePackageVersion`, the only command it issues, contains `-Dincludes=` with the package
name, `-DdepVersion=` with the fixed version, `-DprocessDependencies=` with the negation of
`d` and `-DprocessDependencyManagement=` with `d`, so exactly one of the two section
switches is `true`, the one of the section where the declaration was found; the argument
list built by `updateProperties` for each property, the only commands it issues, carries
the same two switches, computed from the flag of the map entry. -/
theorem rewrite_arguments_scope_the_section {W : Type} (env : Env W)
    (mph : MavenPackageHandler) (sys : Sys W) (impactedPackage fixedVersion : String)
    (d : Bool) (depDetails : pomDependencyDetails) :
    (("-Dincludes=" ++ impactedPackage) ∈ updateVersionArgs impactedPackage fixedVersion d
      ∧ ("-DdepVersion=" ++ fixedVersion) ∈ updateVersionArgs impactedPackage fixedVersion d
      ∧ ("-DprocessDependencies=" ++ fmtBool (!d))
          ∈ updateVersionArgs impactedPackage fixedVersion d
      ∧ ("-DprocessDependencyManagement=" ++ fmtBool d)
          ∈ updateVersionArgs impactedPackage fixedVersion d
      ∧ (updateVersionArgs impactedPackage fixedVersion d).filter
            (fun a => decide (a = "-DprocessDependencies=true"
              ∨ a = "-DprocessDependencyManagement=true"))
          = [if d then "-DprocessDependencyManagement=true" else "-DprocessDependencies=true"])
    ∧ (∃ new, (updatePackageVersion env mph sys impactedPackage fixedVersion d).sys.issued
          = sys.issued ++ new
        ∧ ∀ goals ∈ new, goals = updateVersionArgs impactedPackage fixedVersion d)
    ∧ (∀ property : String,
        ("-DprocessDependencies=" ++ fmtBool (!depDetails.foundInDependencyManagement))
          ∈ updatePropertyArgs depDetails fixedVersion property
        ∧ ("-DprocessDependencyManagement=" ++ fmtBool depDetails.foundInDependencyManagement)
          ∈ updatePropertyArgs depDetails fixedVersion property)
    ∧ (∃ new, (updateProperties env mph sys depDetails fixedVersion).sys.issued
          = sys.issued ++ new
        ∧ ∀ goals ∈ new, ∃ property ∈ depDetails.properties,
            goals = updatePropertyArgs depDetails fixedVersion property) := by
  refine ⟨⟨by simp [updateVersionArgs], by simp [updateVersionArgs],
      by simp [updateVersionArgs], by simp [updateVersionArgs], ?_⟩, ?_, ?_, ?_⟩
  · have h1 := (includes_depVersion_not_switch impactedPackage).1
    have h2 := (includes_depVersion_not_switch fixedVersion).2
    cases d <;>
      simp [updateVersionArgs, fmtBool, List.filter, h1.1, h1.2, h2.1, h2.2]
  · exact runMvnCommand_issued_append env mph
      { sys with
        logged := sys.logged ++ [(LogLevel.Debug, "Running '" ++
          ("mvn " ++ stringsJoin (updateVersionArgs impactedPackage fixedVersion d) " ")
          ++ "'")] }
      (updateVersionArgs impactedPackage fixedVersion d)
  · intro property
    exact ⟨by simp [updatePropertyArgs], by simp [updatePropertyArgs]⟩
  · exact updatePropertiesRange_issued env mph depDetails fixedVersion
      depDetails.properties sys

/-! ## The dependency-management flag -/

/-- The coordinates of two lists of declarations, one after the other. -/
theorem flaggedCoordinates_append (flag : Declaration → Bool) (xs ys : List Declaration) :
    flaggedCoordinates flag (xs ++ ys)
      = flaggedCoordinates flag xs ++ flaggedCoordinates flag ys := by
  simp [flaggedCoordinates]

/-- The coordinates of a list of declarations, the first one apart. -/
theorem flaggedCoordinates_cons (flag : Declaration → Bool) (d : Declaration)
    (ds : List Declaration) :
    flaggedCoordinates flag (d :: ds)
      = (if !d.gav.isEmpty then
            [({ d.gav with foundInDependencyManagement := flag d }).trimSpaces]
          else [])
        ++ flaggedCoordinates flag ds := by
  cases hempty : d.gav.isEmpty <;> simp [flaggedCoordinates, List.filter, hempty]

mutual
/-- The coordinates collected from a decoded plugin all carry the flag `false`. -/
theorem collectMavenPlugins_flags (inside : Bool) :
    ∀ plugin : mavenPlugin, pluginDecoded plugin = true →
      collectMavenPlugins plugin
        = flaggedCoordinates (fun d => !d.isPlugin && d.inDependencyManagement)
            (pluginDeclarations inside plugin)
  | .mk gav NestedPlugins, h => by
    simp only [pluginDecoded, Bool.and_eq_true, Bool.not_eq_true'] at h
    have ih := collectMavenPluginsRange_flags inside NestedPlugins h.2
    have hgav : ({ gav with foundInDependencyManagement := false } : gavCoordinate) = gav := by
      cases gav; simp only at h; simp [h.1]
    simp only [collectMavenPlugins, pluginDeclarations, ih]
    cases hempty : gav.isEmpty <;>
      simp [flaggedCoordinates, hempty, hgav]
/-- The coordinates collected from a list of decoded plugins all carry the flag `false`. -/
theorem collectMavenPluginsRange_flags (inside : Bool) :
    ∀ plugins : List mavenPlugin, pluginsDecoded plugins = true →
      collectMavenPluginsRange plugins
        = flaggedCoordinates (fun d => !d.isPlugin && d.inDependencyManagement)
            (pluginDeclarationsRange inside plugins)
  | [], _ => by simp [collectMavenPluginsRange, pluginDeclarationsRange, flaggedCoordinates]
  | plugin :: rest, h => by
    simp only [pluginsDecoded, Bool.and_eq_true] at h
    simp only [collectMavenPluginsRange, pluginDeclarationsRange, flaggedCoordinates_append,
      collectMavenPlugins_flags inside plugin h.1, collectMavenPluginsRange_flags inside rest h.2]
end

mutual
/-- The coordinates collected from a decoded tree walked with the flag `inside`: a
dependency declaration carries `true` exactly inside a dependency-management section, a
plugin declaration carries `false`. -/
theorem collectMavenDependencies_flags (inside : Bool) :
    ∀ tree : mavenDependency, treeDecoded tree = true →
      collectMavenDependencies inside tree
        = flaggedCoordinates (fun d => !d.isPlugin && d.inDependencyManagement)
            (declarations inside tree)
  | .mk gav Dependencies DependencyManagement Plugins, h => by
    simp only [treeDecoded, Bool.and_eq_true, Bool.not_eq_true'] at h
    have ih1 := collectMavenDependenciesRange_flags inside Dependencies h.1.1.2
    have ih2 := collectMavenDependenciesRange_flags true DependencyManagement h.1.2
    have ih3 := collectMavenPluginsRange_flags inside Plugins h.2
    simp only [collectMavenDependencies, declarations, ih1, ih2, ih3, List.cons_append,
      flaggedCoordinates_cons, flaggedCoordinates_append, List.append_assoc, Bool.not_false,
      Bool.true_and]
/-- The coordinates collected from a list of decoded trees, each walked with the flag
`inside`. -/
theorem collectMavenDependenciesRange_flags (inside : Bool) :
    ∀ trees : List mavenDependency, treesDecoded trees = true →
      collectMavenDependenciesRange inside trees
        = flaggedCoordinates (fun d => !d.isPlugin && d.inDependencyManagement)
            (declarationsRange inside trees)
  | [], _ => by simp [collectMavenDependenciesRange, declarationsRange, flaggedCoordinates]
  | tree :: rest, h => by
    simp only [treesDecoded, Bool.and_eq_true] at h
    simp only [collectMavenDependenciesRange, declarationsRange, flaggedCoordinates_append,
      collectMavenDependencies_flags inside tree h.1,
      collectMavenDependenciesRange_flags inside rest h.2]
end

/-- C8, as stated, fails: in the pom where the project manages the dependency
`org.lib:core`, whose element holds the build plugin `org.p:plug`, the plugin declaration
lies inside the dependency-management section, yet the coordinate returned for it by
`getMavenDependencies` carries the flag `false`. -/
theorem managed_plugin_is_not_flagged :
    (⟨⟨"org.p", "plug", "3.0", false⟩, true, true⟩ : Declaration)
        ∈ declarations false managedPluginTree
    ∧ getMavenDependencies (exampleEnv managedPluginPom none "") managedPluginPom
        = .ok [⟨"com.acme", "app", "1.0", false⟩, ⟨"org.lib", "core", "2.0", true⟩,
            ⟨"org.p", "plug", "3.0", false⟩]
    ∧ getMavenDependencies (exampleEnv managedPluginPom none "") managedPluginPom
        ≠ .ok (flaggedCoordinates (fun d => d.inDependencyManagement)
            (declarations false managedPluginTree)) := by
  have hcode : getMavenDependencies (exampleEnv managedPluginPom none "") managedPluginPom
      = .ok [⟨"com.acme", "app", "1.0", false⟩, ⟨"org.lib", "core", "2.0", true⟩,
          ⟨"org.p", "plug", "3.0", false⟩] := rfl
  refine ⟨by decide, hcode, ?_⟩
  rw [hcode]
  intro h
  injection h with h
  revert h
  decide

/-- C8, amended: for every manifest tree as the decoder builds it, the coordinates returned
by `getMavenDependencies` are those of the non-empty declarations of the tree, in order,
where a dependency declaration has the flag `true` if and only if it lies inside a
dependency-management section, at any depth beneath it, and a plugin declaration has the
flag `false` wherever it lies. -/
theorem collected_flags_by_section {W : Type} (env : Env W) (pomXmlContent : String)
    (tree : mavenDependency)
    (hparse : env.xmlUnmarshal pomXmlContent = .ok tree)
    (hdecoded : treeDecoded tree = true) :
    getMavenDependencies env pomXmlContent
      = .ok (flaggedCoordinates (fun d => !d.isPlugin && d.inDependencyManagement)
          (declarations false tree)) := by
  unfold getMavenDependencies
  simp only [hparse, collectMavenDependencies_flags false tree hdecoded]

/-- C8, amended, at an example: the pom with a plugin beneath a dependency-management
entry. -/
theorem collected_flags_by_section_witness :
    getMavenDependencies (exampleEnv managedPluginPom none "") managedPluginPom
      = .ok (flaggedCoordinates (fun d => !d.isPlugin && d.inDependencyManagement)
          (declarations false managedPluginTree)) :=
  collected_flags_by_section (exampleEnv managedPluginPom none "") managedPluginPom
    managedPluginTree rfl (by decide)

/-! ## The keys of the dependency map -/

/-- The keys after a write: the key written and the keys before. -/
theorem mem_mapKeys_mapSet (m : DepMap) (k' : String) (v : pomDependencyDetails)
    (k : String) :
    k ∈ mapKeys (mapSet m k' v) ↔ k = k' ∨ k ∈ mapKeys m := by
  induction m with
  | nil => simp [mapSet, mapKeys]
  | cons entry rest ih =>
    obtain ⟨k0, v0⟩ := entry
    simp only [mapKeys] at ih
    by_cases h : k0 = k'
    · simp only [mapSet, h, if_true, mapKeys, List.map_cons, List.mem_cons]
      tauto
    · simp only [mapSet, h, if_false, mapKeys, List.map_cons, List.mem_cons, ih]
      tauto

/-- A write keeps the keys distinct. -/
theorem nodup_mapKeys_mapSet (m : DepMap) (k' : String) (v : pomDependencyDetails)
    (hm : (mapKeys m).Nodup) : (mapKeys (mapSet m k' v)).Nodup := by
  induction m with
  | nil => simp [mapSet, mapKeys]
  | cons entry rest ih =>
    obtain ⟨k0, v0⟩ := entry
    simp only [mapKeys, List.map_cons, List.nodup_cons] at hm
    by_cases h : k0 = k'
    · simp only [mapSet, h, if_true, mapKeys, List.map_cons, List.nodup_cons]
      exact ⟨h ▸ hm.1, hm.2⟩
    · simp only [mapSet, h, if_false, mapKeys, List.map_cons, List.nodup_cons]
      refine ⟨?_, ih hm.2⟩
      intro hmem
      rcases (mem_mapKeys_mapSet rest k' v k0).mp hmem with hk | hk
      · exact h hk
      · exact hm.1 hk

/-- A read finds an entry exactly for the keys of the map. -/
theorem mapGet_isSome_iff (m : DepMap) (k : String) :
    (mapGet m k).isSome = true ↔ k ∈ mapKeys m := by
  induction m with
  | nil => simp [mapGet, mapKeys]
  | cons entry rest ih =>
    obtain ⟨k0, v0⟩ := entry
    simp only [mapKeys] at ih
    by_cases h : k0 = k
    · simp [mapGet, mapKeys, h]
    · have h' : ¬ k = k0 := fun e => h e.symm
      simp [mapGet, mapKeys, h, h', ih]

/-- A coordinate with an empty version leaves the map as it is. -/
theorem fillDependency_of_empty_version (m : DepMap) (dependency : gavCoordinate)
    (hversion : dependency.Version = "") : fillDependency m dependency = m := by
  simp [fillDependency, hversion]

/-- A coordinate with a version adds its key, if new, and no other key. -/
theorem mem_mapKeys_fillDependency (m : DepMap) (dependency : gavCoordinate)
    (hversion : dependency.Version ≠ "") (k : String) :
    k ∈ mapKeys (fillDependency m dependency) ↔ k = depName dependency ∨ k ∈ mapKeys m := by
  unfold fillDependency
  simp only [hversion, if_false]
  cases hget : mapGet m (depName dependency) with
  | none =>
    simp only [Option.isNone_none, if_true]
    split
    · split
      · exact mem_mapKeys_mapSet m _ _ k
      · rw [mem_mapKeys_mapSet, mem_mapKeys_mapSet]
        tauto
    · exact mem_mapKeys_mapSet m _ _ k
  | some details =>
    have hmem : depName dependency ∈ mapKeys m := by
      rw [← mapGet_isSome_iff, hget]; rfl
    simp only [Option.isNone_some, Bool.false_eq_true, if_false]
    split
    · split
      · constructor
        · exact Or.inr
        · rintro (h | h)
          · exact h ▸ hmem
          · exact h
      · rw [mem_mapKeys_mapSet]
    · constructor
      · exact Or.inr
      · rintro (h | h)
        · exact h ▸ hmem
        · exact h

/-- One round of the loop keeps the keys distinct. -/
theorem nodup_mapKeys_fillDependency (m : DepMap) (dependency : gavCoordinate)
    (hm : (mapKeys m).Nodup) : (mapKeys (fillDependency m dependency)).Nodup := by
  unfold fillDependency
  split
  · exact hm
  · simp only
    split
    · split
      · split
        · exact nodup_mapKeys_mapSet m _ _ hm
        · exact nodup_mapKeys_mapSet _ _ _ (nodup_mapKeys_mapSet m _ _ hm)
      · split
        · exact hm
        · exact nodup_mapKeys_mapSet m _ _ hm
    · split
      · exact nodup_mapKeys_mapSet m _ _ hm
      · exact hm

/-- On a non-nil map the loop over the coordinates returns, with the rounds applied from
left to right. -/
theorem fillDependencies_some (dependencies : List gavCoordinate) :
    ∀ m : DepMap,
      fillDependencies (some m) dependencies
        = .returned (some (dependencies.foldl fillDependency m)) := by
  induction dependencies with
  | nil => intro m; rfl
  | cons dependency rest ih => intro m; simp [fillDependencies, ih]

/-- The keys after the loop: the keys before, and the keys of the coordinates that have a
version. -/
theorem mem_mapKeys_foldl (dependencies : List gavCoordinate) :
    ∀ (m : DepMap) (k : String),
      k ∈ mapKeys (dependencies.foldl fillDependency m)
        ↔ k ∈ mapKeys m
          ∨ ∃ d ∈ dependencies, d.Version ≠ "" ∧ k = d.GroupId ++ ":" ++ d.ArtifactId := by
  induction dependencies with
  | nil => intro m k; simp
  | cons dependency rest ih =>
    intro m k
    rw [List.foldl_cons, ih]
    by_cases hversion : dependency.Version = ""
    · rw [fillDependency_of_empty_version m dependency hversion]
      simp [hversion]
    · rw [mem_mapKeys_fillDependency m dependency hversion]
      simp only [List.mem_cons, exists_eq_or_imp, depName]
      tauto

/-- The loop keeps the keys distinct. -/
theorem nodup_mapKeys_foldl (dependencies : List gavCoordinate) :
    ∀ m : DepMap, (mapKeys m).Nodup → (mapKeys (dependencies.foldl fillDependency m)).Nodup := by
  induction dependencies with
  | nil => intro m hm; exact hm
  | cons dependency rest ih =>
    intro m hm
    exact ih _ (nodup_mapKeys_fillDependency m dependency hm)

/-- C9: starting from an empty map, after `fillDependenciesMap` has processed the
coordinates collected from a pom, the keys of the map, all distinct, are exactly the
strings `groupId:artifactId` of the collected coordinates whose version is not empty; and
on any map a coordinate with an empty version adds no key and changes no entry: the loop
gives the same map with that coordinate as without it. -/
theorem fillDependenciesMap_keys {W : Type} (env : Env W) (mph : MavenPackageHandler)
    (w : W) (path content : String) (tree : mavenDependency)
    (hmap : mph.mavenDepToPropertyMap = some [])
    (hread : env.ReadFile w path = .ok content)
    (hparse : env.xmlUnmarshal content = .ok tree) :
    (∃ m : DepMap,
      fillDependenciesMap env mph w path
        = .returned ({ mph with mavenDepToPropertyMap := some m }, none)
      ∧ (mapKeys m).Nodup
      ∧ ∀ k : String, k ∈ mapKeys m
          ↔ ∃ d ∈ collectMavenDependencies false tree,
              d.Version ≠ "" ∧ k = d.GroupId ++ ":" ++ d.ArtifactId)
    ∧ ∀ (m : DepMap) (before after : List gavCoordinate) (d : gavCoordinate),
        d.Version = "" →
        fillDependencies (some m) (before ++ d :: after)
          = fillDependencies (some m) (before ++ after) := by
  constructor
  · refine ⟨(collectMavenDependencies false tree).foldl fillDependency [], ?_, ?_, ?_⟩
    · unfold fillDependenciesMap getMavenDependencies
      simp only [hread, hparse, hmap, fillDependencies_some]
    · exact nodup_mapKeys_foldl _ [] (by simp [mapKeys])
    · intro k
      rw [mem_mapKeys_foldl]
      simp [mapKeys]
  · intro m before after d hversion
    rw [fillDependencies_some, fillDependencies_some, List.foldl_append, List.foldl_append,
      List.foldl_cons, fillDependency_of_empty_version _ d hversion]

/-- C9 at an example: the example pom read into an empty map, and a coordinate without
version between others. -/
theorem fillDependenciesMap_keys_witness :
    (∃ m : DepMap,
      fillDependenciesMap (exampleEnv examplePom none "")
          { freshHandler with mavenDepToPropertyMap := some [] } () "/work/pom.xml"
        = .returned ({ freshHandler with mavenDepToPropertyMap := some m }, none)
      ∧ (mapKeys m).Nodup
      ∧ ∀ k : String, k ∈ mapKeys m
          ↔ ∃ d ∈ collectMavenDependencies false exampleTree,
              d.Version ≠ "" ∧ k = d.GroupId ++ ":" ++ d.ArtifactId)
    ∧ fillDependencies (some [])
          ([⟨"junit", "junit", "4.12", false⟩] ++ ⟨"org.lib", "core", "", false⟩ :: [])
        = fillDependencies (some []) ([⟨"junit", "junit", "4.12", false⟩] ++ []) :=
  ⟨(fillDependenciesMap_keys (exampleEnv examplePom none "")
      { freshHandler with mavenDepToPropertyMap := some [] } () "/work/pom.xml" examplePom
      exampleTree rfl rfl rfl).1,
   (fillDependenciesMap_keys (exampleEnv examplePom none "")
      { freshHandler with mavenDepToPropertyMap := some [] } () "/work/pom.xml" examplePom
      exampleTree rfl rfl rfl).2 [] [⟨"junit", "junit", "4.12", false⟩] []
      ⟨"org.lib", "core", "", false⟩ rfl⟩

/-! ## The properties of a symbolic version -/

/-- Trimming the reference to a property gives the name of the property, when the name
neither begins nor ends with a character of the cutset. -/
theorem stringsTrim_reference (n : String)
    (hfirst : ∀ c ∈ n.data.head?, c ∉ versionCutset.data)
    (hlast : ∀ c ∈ n.data.getLast?, c ∉ versionCutset.data) :
    stringsTrim ("$\x7b" ++ n ++ "\x7d") "$\x7b\x7d" = n := by
  obtain ⟨chars⟩ := n
  simp only [stringsTrim, trimBoth, String.data_append]
  congr 1
  cases chars with
  | nil => decide
  | cons c cs =>
    have hc : c ∉ versionCutset.data := hfirst c (by simp)
    have hc' : decide (c ∈ "$\x7b\x7d".data) = false := by
      simpa [versionCutset] using hc
    have hfront : List.dropWhile (fun c => decide (c ∈ "$\x7b\x7d".data))
        ("$\x7b".data ++ (c :: cs) ++ "\x7d".data) = (c :: cs) ++ "\x7d".data := by
      show List.dropWhile _ ('$' :: '\x7b' :: ((c :: cs) ++ "\x7d".data)) = _
      rw [List.dropWhile_cons_of_pos (by decide), List.dropWhile_cons_of_pos (by decide)]
      exact List.dropWhile_cons_of_neg (by simpa using hc')
    rw [hfront, List.reverse_append]
    obtain ⟨l, hl⟩ : ∃ l, (c :: cs).getLast? = some l := by
      cases h : (c :: cs).getLast? with
      | none => simp at h
      | some l => exact ⟨l, rfl⟩
    have hlc : l ∉ versionCutset.data := hlast l (by simpa using hl)
    have hrev : (c :: cs).reverse = l :: (c :: cs).dropLast.reverse := by
      have := List.dropLast_append_getLast? l hl
      conv_lhs => rw [← this]
      simp
    show (List.dropWhile _ ('\x7d' :: (c :: cs).reverse)).reverse = _
    rw [List.dropWhile_cons_of_pos (by decide), hrev,
      List.dropWhile_cons_of_neg (by simpa [versionCutset] using hlc), ← hrev,
      List.reverse_reverse]

/-- A read after a write: the value written at the key written, the old value elsewhere. -/
theorem mapGet_mapSet (m : DepMap) (k' : String) (v : pomDependencyDetails) (k : String) :
    mapGet (mapSet m k' v) k = if k' = k then some v else mapGet m k := by
  induction m with
  | nil => simp [mapSet, mapGet]
  | cons entry rest ih =>
    obtain ⟨k0, v0⟩ := entry
    by_cases h : k0 = k'
    · by_cases hk : k' = k
      · simp [mapSet, mapGet, h, hk]
      · simp [mapSet, mapGet, h, hk]
    · by_cases hk0 : k0 = k
      · have hk : ¬ k' = k := fun e => h (hk0.trans e.symm)
        subst hk0
        simp only [mapSet, h, if_false, mapGet, if_true, hk]
      · simp only [mapSet, h, if_false, mapGet, hk0, ih]

/-- The properties read after a write. -/
theorem mapProperties_mapSet (m : DepMap) (k' : String) (v : pomDependencyDetails)
    (k : String) :
    mapProperties (mapSet m k' v) k = if k' = k then v.properties else mapProperties m k := by
  unfold mapProperties
  rw [mapGet_mapSet]
  by_cases hk : k' = k
  · simp only [hk, if_true]
  · simp only [hk, if_false]

/-- The properties after the first write of a round (lines 108-110) are the properties
before it. -/
theorem mapProperties_after_first_write (m : DepMap) (dependency : gavCoordinate)
    (k : String) :
    mapProperties
        (if (mapGet m (depName dependency)).isNone then
          mapSet m (depName dependency)
            { properties := []
              currentVersion := dependency.Version
              foundInDependencyManagement := dependency.foundInDependencyManagement }
        else m) k
      = mapProperties m k := by
  cases hget : mapGet m (depName dependency) with
  | some details => simp
  | none =>
    simp only [Option.isNone_none, if_true]
    rw [mapProperties_mapSet]
    split
    · next hk => subst hk; simp [mapProperties, hget]
    · rfl

/-- C10: for every property name `n` that neither begins nor ends with a dollar sign or a
brace, one round of the loop of `fillDependenciesMap` on a dependency whose version is the
reference to `n` leaves in the properties list of the entry of that dependency the list
held before with the name `n` appended if it was not there, so the list contains `n`, the
raw reference is not added, and the list of no other key changes; one round on a dependency
whose version does not start with a dollar sign and an opening brace changes the
properties list of no key. -/
theorem fillDependency_properties (m : DepMap) (dependency : gavCoordinate) :
    fillDependencies (some m) [dependency] = .returned (some (fillDependency m dependency))
    ∧ (∀ n : String, dependency.Version = "$\x7b" ++ n ++ "\x7d" →
        (∀ c ∈ n.data.head?, c ∉ versionCutset.data) →
        (∀ c ∈ n.data.getLast?, c ∉ versionCutset.data) →
        mapProperties (fillDependency m dependency) (depName dependency)
            = (if n ∈ mapProperties m (depName dependency) then
                mapProperties m (depName dependency)
              else mapProperties m (depName dependency) ++ [n])
          ∧ n ∈ mapProperties (fillDependency m dependency) (depName dependency)
          ∧ (dependency.Version
                ∈ mapProperties (fillDependency m dependency) (depName dependency)
              ↔ dependency.Version ∈ mapProperties m (depName dependency))
          ∧ ∀ k : String, k ≠ depName dependency →
              mapProperties (fillDependency m dependency) k = mapProperties m k)
    ∧ (¬ stringsHasPrefix dependency.Version "$\x7b" →
        ∀ k : String, mapProperties (fillDependency m dependency) k = mapProperties m k) := by
  refine ⟨rfl, ?_, ?_⟩
  · intro n hversion hfirst hlast
    have hne : dependency.Version ≠ "" := by
      intro h
      have := congrArg String.data (hversion.symm.trans h)
      simp [String.data_append] at this
    have hstarts : stringsHasPrefix dependency.Version "$\x7b" := by
      refine ⟨(n ++ "\x7d").data, ?_⟩
      rw [hversion]
      simp [String.data_append]
    have htrim : stringsTrim dependency.Version "$\x7b\x7d" = n := by
      rw [hversion]
      exact stringsTrim_reference n hfirst hlast
    have hraw : dependency.Version ≠ n := by
      intro h
      have := congrArg String.length (hversion.symm.trans h)
      simp [String.length_append] at this
      have h2 : ("$\x7b" : String).length = 2 := by decide
      have h1 : ("\x7d" : String).length = 1 := by decide
      omega
    have hfill : mapProperties (fillDependency m dependency) (depName dependency)
        = (if n ∈ mapProperties m (depName dependency) then
            mapProperties m (depName dependency)
          else mapProperties m (depName dependency) ++ [n]) := by
      unfold fillDependency
      simp only [hne, if_false, hstarts, if_true, htrim, mapProperties_after_first_write]
      by_cases hmem : n ∈ mapProperties m (depName dependency)
      · simp only [hmem, if_true, mapProperties_after_first_write]
      · simp only [hmem, if_false, mapProperties_mapSet, if_true]
    refine ⟨hfill, ?_, ?_, ?_⟩
    · rw [hfill]
      split
      · assumption
      · simp
    · rw [hfill]
      split
      · rfl
      · simp [hraw]
    · intro k hk
      unfold fillDependency
      simp only [hne, if_false, hstarts, if_true, htrim, mapProperties_after_first_write]
      split
      · exact mapProperties_after_first_write m dependency k
      · rw [mapProperties_mapSet, if_neg (fun e => hk e.symm)]
        exact mapProperties_after_first_write m dependency k
  · intro hstarts k
    unfold fillDependency
    split
    · rfl
    · simp only [hstarts, if_false]
      exact mapProperties_after_first_write m dependency k

/-- C10 at an example: the dependency `org.lib:core` with the reference to `lib.version`,
and the dependency `junit:junit` with the literal version `4.12`, on an empty map. -/
theorem fillDependency_properties_witness :
    mapProperties (fillDependency [] ⟨"org.lib", "core", "$\x7blib.version\x7d", false⟩)
        "org.lib:core" = ["lib.version"]
    ∧ mapProperties (fillDependency [] ⟨"junit", "junit", "4.12", false⟩) "junit:junit"
        = mapProperties [] "junit:junit" :=
  ⟨((fillDependency_properties [] ⟨"org.lib", "core", "$\x7blib.version\x7d", false⟩).2.1
      "lib.version" (by decide) (by decide) (by decide)).1,
   (fillDependency_properties [] ⟨"junit", "junit", "4.12", false⟩).2.2 (by decide)
      "junit:junit"⟩

/-! ## The first property whose command fails -/

/-- The failure of a run depends on the world only, not on the trace. -/
theorem mvnInvocationFailure_of_world {W : Type} (env : Env W) (mph : MavenPackageHandler)
    (s t : Sys W) (goals : List String) (hworld : s.world = t.world) :
    mvnInvocationFailure env mph s goals = mvnInvocationFailure env mph t goals := by
  unfold mvnInvocationFailure
  rw [hworld]

/-- A run that fails was started: its command is in the trace. -/
theorem runMvnCommand_issued_of_failure {W : Type} (env : Env W) (mph : MavenPackageHandler)
    (sys : Sys W) (goals : List String) (failure : String)
    (hfail : mvnInvocationFailure env mph sys goals = some failure) :
    (runMvnCommand env mph sys goals).sys.issued = sys.issued ++ [goals] := by
  apply runMvnCommand_issued_of_start
  unfold mvnInvocationFailure at hfail
  by_cases hrepo : mph.depsRepo = ""
  · exact Or.inl hrepo
  · right
    simp only [hrepo, if_false] at hfail
    cases hcfg : env.ReadMavenConfig sys.world mph.depsRepo mph.ServerDetails with
    | none => rfl
    | some e => simp [hcfg] at hfail

/-- The loop of `updateProperties` over `before ++ rest`, when it passes `before` without
error, goes on with `rest` from the state reached. -/
theorem updatePropertiesRange_append {W : Type} (env : Env W) (mph : MavenPackageHandler)
    (depDetails : pomDependencyDetails) (fixedVersion : String) (before rest : List String) :
    ∀ sys : Sys W,
      (updatePropertiesRange env mph depDetails fixedVersion sys before).err = none →
      updatePropertiesRange env mph depDetails fixedVersion sys (before ++ rest)
        = updatePropertiesRange env mph depDetails fixedVersion
            (updatePropertiesRange env mph depDetails fixedVersion sys before).sys rest := by
  induction before with
  | nil => intro sys _; rfl
  | cons property more ih =>
    intro sys h
    simp only [List.cons_append, updatePropertiesRange] at h ⊢
    split
    · next err herr => simp [herr] at h
    · next herr =>
      simp only [herr] at h
      exact ih _ h

/-- A loop of `updateProperties` that returns no error has issued one command per
property, in the order of the list. -/
theorem updatePropertiesRange_issued_of_success {W : Type} (env : Env W)
    (mph : MavenPackageHandler) (depDetails : pomDependencyDetails) (fixedVersion : String)
    (properties : List String) :
    ∀ sys : Sys W,
      (updatePropertiesRange env mph depDetails fixedVersion sys properties).err = none →
      (updatePropertiesRange env mph depDetails fixedVersion sys properties).sys.issued
        = sys.issued ++ properties.map (updatePropertyArgs depDetails fixedVersion) := by
  induction properties with
  | nil => intro sys _; simp [updatePropertiesRange]
  | cons property rest ih =>
    intro sys h
    simp only [updatePropertiesRange] at h ⊢
    split
    · next err herr => simp [herr] at h
    · next herr =>
      simp only [herr] at h
      rw [ih _ h, runMvnCommand_issued_of_success env mph _ _ herr]
      simp

/-- C11: for every properties list, written `before ++ p :: after`: if the commands for
the properties of `before` succeed and the run for `p` fails, `updateProperties` returns a
non-nil error whose message names `p`, and the commands it has issued are those for the
properties of `before` and for `p`, once each and in order; nothing is issued twice and
nothing is issued for a property of `after`. -/
theorem updateProperties_stops_at_first_failure {W : Type} (env : Env W)
    (mph : MavenPackageHandler) (sys : Sys W) (depDetails : pomDependencyDetails)
    (fixedVersion : String) (before after : List String) (p failure : String)
    (hprops : depDetails.properties = before ++ p :: after)
    (hbefore : (updatePropertiesRange env mph depDetails fixedVersion sys before).err = none)
    (hfail : mvnInvocationFailure env mph
      (updatePropertiesRange env mph depDetails fixedVersion sys before).sys
      (updatePropertyArgs depDetails fixedVersion p) = some failure) :
    (∃ message,
        (updateProperties env mph sys depDetails fixedVersion).err
          = some (GoError.errorString message)
        ∧ strContains message p)
      ∧ (updateProperties env mph sys depDetails fixedVersion).sys.issued
          = sys.issued ++ (before ++ [p]).map (updatePropertyArgs depDetails fixedVersion) := by
  have hrun := updatePropertiesRange_append env mph depDetails fixedVersion before
    (p :: after) sys hbefore
  have hissued := updatePropertiesRange_issued_of_success env mph depDetails fixedVersion
    before sys hbefore
  have hfail' : mvnInvocationFailure env mph
      { (updatePropertiesRange env mph depDetails fixedVersion sys before).sys with
        logged := (updatePropertiesRange env mph depDetails fixedVersion sys before).sys.logged
          ++ [(LogLevel.Debug, "Running '" ++
            ("mvn " ++ stringsJoin (updatePropertyArgs depDetails fixedVersion p) " ")
            ++ "'")] }
      (updatePropertyArgs depDetails fixedVersion p) = some failure := by
    rw [← hfail]
    exact mvnInvocationFailure_of_world env mph _ _ _ rfl
  have herr := runMvnCommand_err_of_failure env mph _ _ failure hfail'
  have hlast := runMvnCommand_issued_of_failure env mph _ _ failure hfail'
  unfold updateProperties
  rw [hprops, hrun]
  simp only [updatePropertiesRange, herr]
  refine ⟨⟨_, rfl, ?_⟩, ?_⟩
  · refine ⟨"failed updating ".data, (" property: " ++ GoError.Error env
      (GoError.errorString (failedRunningCommand
        (updatePropertyArgs depDetails fixedVersion p) failure)) ++ "\n").data, ?_⟩
    simp [String.data_append]
  · rw [hlast]
    simp only [hissued, List.map_append, List.map_cons, List.map_nil, List.append_assoc]

/-- C11 at an example: of the properties `a.version`, `b.version`, `c.version`, the command
for `b.version` is the first to fail. -/
theorem updateProperties_stops_at_first_failure_witness :
    (∃ message,
        (updateProperties (failingPropertyEnv "b.version") exampleFilledHandler freshSys
            ⟨["a.version", "b.version", "c.version"], "$\x7ba.version\x7d", false⟩ "2.4").err
          = some (GoError.errorString message)
        ∧ strContains message "b.version")
      ∧ (updateProperties (failingPropertyEnv "b.version") exampleFilledHandler freshSys
            ⟨["a.version", "b.version", "c.version"], "$\x7ba.version\x7d", false⟩ "2.4").sys.issued
          = freshSys.issued ++ (["a.version"] ++ ["b.version"]).map
              (updatePropertyArgs
                ⟨["a.version", "b.version", "c.version"], "$\x7ba.version\x7d", false⟩ "2.4") :=
  updateProperties_stops_at_first_failure (failingPropertyEnv "b.version")
    exampleFilledHandler freshSys
    ⟨["a.version", "b.version", "c.version"], "$\x7ba.version\x7d", false⟩ "2.4"
    ["a.version"] ["c.version"] "b.version" "exit status 1" rfl (by decide) (by decide)

/-! ## What a call leaves of the handler -/

/-- With the reader plugin installed, `installMavenGavReader` does nothing. -/
theorem installMavenGavReader_of_installed {W : Type} (env : Env W)
    (mph : MavenPackageHandler) (sys : Sys W)
    (hinstalled : mph.isMavenGavReaderInstalled = true) :
    installMavenGavReader env mph sys = { mph := mph, sys := sys, err := none } := by
  unfold installMavenGavReader
  simp only [hinstalled, if_true]

/-- With pom paths at hand, `getProjectPoms` does nothing. -/
theorem getProjectPoms_of_paths {W : Type} (env : Env W) (mph : MavenPackageHandler)
    (sys : Sys W) (hpaths : mph.pomPaths ≠ []) :
    getProjectPoms env mph sys = { mph := mph, sys := sys, err := none } := by
  unfold getProjectPoms
  have hlen : mph.pomPaths.length > 0 := List.length_pos.mpr hpaths
  simp only [hlen, if_true]

/-- The handler with its own map written back is the handler. -/
theorem handler_with_own_map (mph : MavenPackageHandler) (m : DepMap)
    (hmap : mph.mavenDepToPropertyMap = some m) :
    { mph with mavenDepToPropertyMap := some m } = mph := by
  cases mph
  simp only at hmap
  simp [hmap]

/-- On a handler whose map is not nil, `fillDependenciesMap` returns, changes nothing of the
handler but the map, and removes no key of the map. -/
theorem fillDependenciesMap_of_some {W : Type} (env : Env W) (mph : MavenPackageHandler)
    (w : W) (path : String) (m : DepMap) (hmap : mph.mavenDepToPropertyMap = some m) :
    ∃ (m' : DepMap) (e : Option GoError),
      fillDependenciesMap env mph w path
        = .returned ({ mph with mavenDepToPropertyMap := some m' }, e)
      ∧ ∀ k, k ∈ mapKeys m → k ∈ mapKeys m' := by
  unfold fillDependenciesMap
  cases env.ReadFile w path with
  | error failure =>
    refine ⟨m, some (.errorString ("couldn't read pom.xml file: " ++ failure)), ?_,
      fun _ h => h⟩
    simp only [handler_with_own_map mph m hmap]
  | ok contentBytes =>
    simp only
    cases getMavenDependencies env contentBytes with
    | error failure =>
      refine ⟨m, some (.errorString failure), ?_, fun _ h => h⟩
      simp only [handler_with_own_map mph m hmap]
    | ok mavenDependencies =>
      simp only [hmap, fillDependencies_some]
      refine ⟨_, none, rfl, ?_⟩
      intro k hk
      rw [mem_mapKeys_foldl]
      exact Or.inl hk

/-- On a handler whose map is not nil, the pom loop returns, changes nothing of the handler
but the map, and removes no key of the map. -/
theorem fillDependenciesMapRange_of_some {W : Type} (env : Env W) (w : W)
    (paths : List pomPath) :
    ∀ (mph : MavenPackageHandler) (m : DepMap), mph.mavenDepToPropertyMap = some m →
      ∃ (m' : DepMap) (e : Option GoError),
        fillDependenciesMapRange env w mph paths
          = .returned ({ mph with mavenDepToPropertyMap := some m' }, e)
        ∧ ∀ k, k ∈ mapKeys m → k ∈ mapKeys m' := by
  induction paths with
  | nil =>
    intro mph m hmap
    exact ⟨m, none, by simp only [fillDependenciesMapRange, handler_with_own_map mph m hmap],
      fun _ h => h⟩
  | cons pp rest ih =>
    intro mph m hmap
    obtain ⟨m1, e1, h1, hkeys1⟩ := fillDependenciesMap_of_some env mph w pp.PomPath m hmap
    simp only [fillDependenciesMapRange, h1]
    cases e1 with
    | some err => exact ⟨m1, some err, rfl, hkeys1⟩
    | none =>
      obtain ⟨m2, e2, h2, hkeys2⟩ :=
        ih { mph with mavenDepToPropertyMap := some m1 } m1 rfl
      exact ⟨m2, e2, by simp only [h2], fun k hk => hkeys2 k (hkeys1 k hk)⟩

/-- The statement of lines 168-170 leaves a map that is not nil, and nothing else changed. -/
theorem makeMapIfNil_some (mph : MavenPackageHandler) :
    ∃ m : DepMap, makeMapIfNil mph = { mph with mavenDepToPropertyMap := some m }
      ∧ (makeMapIfNil mph).mavenDepToPropertyMap = some m
      ∧ ∀ m0, mph.mavenDepToPropertyMap = some m0 → m = m0 := by
  unfold makeMapIfNil
  cases hmap : mph.mavenDepToPropertyMap with
  | none => exact ⟨[], rfl, rfl, fun _ h => by simp at h⟩
  | some m =>
    exact ⟨m, (handler_with_own_map mph m hmap).symm, hmap, fun m0 h => by
      simpa using h⟩

/-- The install command and the discovery command are not among the goals built for a
rewrite. -/
theorem rewrite_args_not_install_nor_discovery (depDetails : pomDependencyDetails)
    (impactedPackage fixedVersion property : String) (d : Bool) :
    ((∀ file, updateVersionArgs impactedPackage fixedVersion d ≠ installProperties file)
      ∧ updateVersionArgs impactedPackage fixedVersion d ≠ gavReaderGoals)
    ∧ ((∀ file, updatePropertyArgs depDetails fixedVersion property ≠ installProperties file)
      ∧ updatePropertyArgs depDetails fixedVersion property ≠ gavReaderGoals) := by
  refine ⟨⟨fun file h => ?_, fun h => ?_⟩, ⟨fun file h => ?_, fun h => ?_⟩⟩ <;>
    simp [updateVersionArgs, updatePropertyArgs, installProperties, gavReaderGoals] at h

/-- The loop of `updateProperties` returns the handler it was given. -/
theorem updatePropertiesRange_mph {W : Type} (env : Env W) (mph : MavenPackageHandler)
    (depDetails : pomDependencyDetails) (fixedVersion : String) (properties : List String) :
    ∀ sys : Sys W,
      (updatePropertiesRange env mph depDetails fixedVersion sys properties).mph = mph := by
  induction properties with
  | nil => intro sys; rfl
  | cons property rest ih =>
    intro sys
    simp only [updatePropertiesRange]
    split
    · rfl
    · exact ih _

/-- With the reader plugin installed and pom paths at hand, `UpdateDependency` goes
straight to the pom loop, in the state it was given. -/
theorem updateDependency_of_cached {W : Type} (env : Env W) (mph : MavenPackageHandler)
    (sys : Sys W) (vulnDetails : VulnerabilityDetails)
    (hinstalled : mph.isMavenGavReaderInstalled = true) (hpaths : mph.pomPaths ≠ []) :
    MavenPackageHandler.UpdateDependency env mph sys vulnDetails
      = match fillDependenciesMapRange env sys.world (makeMapIfNil mph)
            (makeMapIfNil mph).pomPaths with
        | .panicked reason => .panicked reason
        | .returned (mph3, some err) => .returned { mph := mph3, sys := sys, err := some err }
        | .returned (mph3, none) =>
          match handlerMapGet mph3 vulnDetails.ImpactedDependencyName with
          | none =>
            .returned
              { mph := mph3, sys := sys
                err := some (.ErrUnsupportedFix vulnDetails.ImpactedDependencyName
                  vulnDetails.SuggestedFixedVersion
                  UnsupportedErrorType.IndirectDependencyFixNotSupported) }
          | some depDetails =>
            if depDetails.properties.length > 0 then
              .returned (updateProperties env mph3 sys depDetails
                vulnDetails.SuggestedFixedVersion)
            else
              .returned (updatePackageVersion env mph3 sys
                vulnDetails.ImpactedDependencyName vulnDetails.SuggestedFixedVersion
                depDetails.foundInDependencyManagement) := by
  unfold MavenPackageHandler.UpdateDependency
  simp only [installMavenGavReader_of_installed env mph sys hinstalled,
    getProjectPoms_of_paths env mph sys hpaths]

/-- C13: for every handler in which the reader plugin is marked installed and the list of
pom paths is not empty, `UpdateDependency` returns, leaves the mark and the list of pom
paths as they were, and issues neither the `install-file` command nor the discovery
command of the reader plugin, whatever the rest of the call gives. -/
theorem updateDependency_keeps_cache {W : Type} (env : Env W) (mph : MavenPackageHandler)
    (sys : Sys W) (vulnDetails : VulnerabilityDetails)
    (hinstalled : mph.isMavenGavReaderInstalled = true) (hpaths : mph.pomPaths ≠ []) :
    ∃ final : Ret W,
      MavenPackageHandler.UpdateDependency env mph sys vulnDetails = .returned final
      ∧ final.mph.isMavenGavReaderInstalled = true
      ∧ final.mph.pomPaths = mph.pomPaths
      ∧ ∃ new, final.sys.issued = sys.issued ++ new
          ∧ ∀ goals ∈ new, (∀ file, goals ≠ installProperties file) ∧ goals ≠ gavReaderGoals := by
  obtain ⟨m0, hmake, hmake2, _⟩ := makeMapIfNil_some mph
  obtain ⟨m', e, hrange, _⟩ := fillDependenciesMapRange_of_some env sys.world
    (makeMapIfNil mph).pomPaths (makeMapIfNil mph) m0 hmake2
  have hflag : ({ makeMapIfNil mph with mavenDepToPropertyMap := some m' } :
      MavenPackageHandler).isMavenGavReaderInstalled = true := by
    rw [hmake]; exact hinstalled
  have hkeep : ({ makeMapIfNil mph with mavenDepToPropertyMap := some m' } :
      MavenPackageHandler).pomPaths = mph.pomPaths := by
    rw [hmake]
  rw [updateDependency_of_cached env mph sys vulnDetails hinstalled hpaths, hrange]
  cases e with
  | some err => exact ⟨_, rfl, hflag, hkeep, [], by simp, by simp⟩
  | none =>
    simp only
    cases handlerMapGet { makeMapIfNil mph with mavenDepToPropertyMap := some m' }
        vulnDetails.ImpactedDependencyName with
    | none => exact ⟨_, rfl, hflag, hkeep, [], by simp, by simp⟩
    | some depDetails =>
      simp only
      split
      · obtain ⟨new, hnew, hall⟩ := updatePropertiesRange_issued env
          { makeMapIfNil mph with mavenDepToPropertyMap := some m' } depDetails
          vulnDetails.SuggestedFixedVersion depDetails.properties sys
        refine ⟨_, rfl, ?_, ?_, new, hnew, ?_⟩
        · unfold updateProperties; rw [updatePropertiesRange_mph]; exact hflag
        · unfold updateProperties; rw [updatePropertiesRange_mph]; exact hkeep
        · intro goals hg
          obtain ⟨property, _, hgoals⟩ := hall goals hg
          rw [hgoals]
          exact (rewrite_args_not_install_nor_discovery depDetails "" _ property false).2
      · obtain ⟨new, hnew, hall⟩ := runMvnCommand_issued_append env
          { makeMapIfNil mph with mavenDepToPropertyMap := some m' }
          { sys with
            logged := sys.logged ++ [(LogLevel.Debug, "Running '" ++
              ("mvn " ++ stringsJoin (updateVersionArgs vulnDetails.ImpactedDependencyName
                vulnDetails.SuggestedFixedVersion depDetails.foundInDependencyManagement) " ")
              ++ "'")] }
          (updateVersionArgs vulnDetails.ImpactedDependencyName
            vulnDetails.SuggestedFixedVersion depDetails.foundInDependencyManagement)
        refine ⟨_, rfl, hflag, hkeep, new, hnew, ?_⟩
        intro goals hg
        rw [hall goals hg]
        exact (rewrite_args_not_install_nor_discovery depDetails _ _ "" _).1

/-- C13 at an example: the handler filled from the example pom, asked to fix `junit:junit`. -/
theorem updateDependency_keeps_cache_witness :
    ∃ final : Ret Unit,
      MavenPackageHandler.UpdateDependency (exampleEnv examplePom none "") exampleFilledHandler
          freshSys ⟨"Maven", "junit:junit", "4.13"⟩ = .returned final
      ∧ final.mph.isMavenGavReaderInstalled = true
      ∧ final.mph.pomPaths = exampleFilledHandler.pomPaths
      ∧ ∃ new, final.sys.issued = freshSys.issued ++ new
          ∧ ∀ goals ∈ new, (∀ file, goals ≠ installProperties file) ∧ goals ≠ gavReaderGoals :=
  updateDependency_keeps_cache (exampleEnv examplePom none "") exampleFilledHandler freshSys
    ⟨"Maven", "junit:junit", "4.13"⟩ rfl (by decide)

/-! ## A second call with the same fix target -/

mutual
/-- The walk of a plugin returns one coordinate per declaration that is not empty. -/
theorem collectMavenPlugins_length (inside : Bool) :
    ∀ plugin : mavenPlugin,
      (collectMavenPlugins plugin).length
        = ((pluginDeclarations inside plugin).filter (fun d => !d.gav.isEmpty)).length
  | .mk gav NestedPlugins => by
    have ih := collectMavenPluginsRange_length inside NestedPlugins
    cases hempty : gav.isEmpty <;>
      simp [collectMavenPlugins, pluginDeclarations, List.filter, hempty, ih]
/-- The walk of a list of plugins returns one coordinate per declaration that is not
empty. -/
theorem collectMavenPluginsRange_length (inside : Bool) :
    ∀ plugins : List mavenPlugin,
      (collectMavenPluginsRange plugins).length
        = ((pluginDeclarationsRange inside plugins).filter (fun d => !d.gav.isEmpty)).length
  | [] => by simp [collectMavenPluginsRange, pluginDeclarationsRange]
  | plugin :: rest => by
    simp [collectMavenPluginsRange, pluginDeclarationsRange,
      collectMavenPlugins_length inside plugin, collectMavenPluginsRange_length inside rest]
end

mutual
/-- The walk of a tree returns one coordinate per declaration that is not empty. -/
theorem collectMavenDependencies_length (inside : Bool) :
    ∀ tree : mavenDependency,
      (collectMavenDependencies inside tree).length
        = ((declarations inside tree).filter (fun d => !d.gav.isEmpty)).length
  | .mk gav Dependencies DependencyManagement Plugins => by
    have ih1 := collectMavenDependenciesRange_length inside Dependencies
    have ih2 := collectMavenDependenciesRange_length true DependencyManagement
    have ih3 := collectMavenPluginsRange_length inside Plugins
    cases hempty : gav.isEmpty <;>
      simp [collectMavenDependencies, declarations, List.filter, hempty, ih1, ih2, ih3]
/-- The walk of a list of trees returns one coordinate per declaration that is not empty. -/
theorem collectMavenDependenciesRange_length (inside : Bool) :
    ∀ trees : List mavenDependency,
      (collectMavenDependenciesRange inside trees).length
        = ((declarationsRange inside trees).filter (fun d => !d.gav.isEmpty)).length
  | [] => by simp [collectMavenDependenciesRange, declarationsRange]
  | tree :: rest => by
    simp [collectMavenDependenciesRange, declarationsRange,
      collectMavenDependencies_length inside tree,
      collectMavenDependenciesRange_length inside rest]
end

/-- C14: `collectMavenDependencies` and `collectMavenPlugins` return a result on every
manifest tree, with one coordinate for each declaration of the tree that is not empty,
whatever the depth: on a chain of `n` nested dependencies, and on a chain of `n` nested
plugins, the walk returns the `n + 1` coordinates, for every `n`. -/
theorem walk_reaches_every_declaration :
    (∀ (inside : Bool) (tree : mavenDependency),
      (collectMavenDependencies inside tree).length
        = ((declarations inside tree).filter (fun d => !d.gav.isEmpty)).length)
    ∧ (∀ (inside : Bool) (plugin : mavenPlugin),
      (collectMavenPlugins plugin).length
        = ((pluginDeclarations inside plugin).filter (fun d => !d.gav.isEmpty)).length)
    ∧ (∀ n : Nat, (declarations false (nestedDependencies n)).length = n + 1
        ∧ (collectMavenDependencies false (nestedDependencies n)).length = n + 1)
    ∧ (∀ n : Nat, (pluginDeclarations false (nestedPlugins n)).length = n + 1
        ∧ (collectMavenPlugins (nestedPlugins n)).length = n + 1) := by
  refine ⟨collectMavenDependencies_length, collectMavenPlugins_length, ?_, ?_⟩
  · intro n
    induction n with
    | zero => exact ⟨by decide, by decide⟩
    | succ n ih =>
      constructor
      · simp [nestedDependencies, declarations, declarationsRange, pluginDeclarationsRange,
          ih.1]
      · have hne : gavCoordinate.isEmpty ⟨"org.lib", "core", "1.0", false⟩ = false := by decide
        simp [nestedDependencies, collectMavenDependencies, collectMavenDependenciesRange,
          collectMavenPluginsRange, hne, ih.2]
  · intro n
    induction n with
    | zero => exact ⟨by decide, by decide⟩
    | succ n ih =>
      constructor
      · simp [nestedPlugins, pluginDeclarations, pluginDeclarationsRange, ih.1]
      · have hne : gavCoordinate.isEmpty ⟨"org.p", "plug", "3.0", false⟩ = false := by decide
        simp [nestedPlugins, collectMavenPlugins, collectMavenPluginsRange, hne, ih.2]

/-! ## The fix version resolver -/

/-- C17: for all version strings `a` and `b`, `a` with no bracket, parenthesis or comma:
`parseVersionChangeString` returns `a` for the bare form `a`, for the exact pin `[a]` and,
as the lower bound, for the closed interval `[a, b]`. -/
theorem parseVersionChangeString_lower_bound (a b : String)
    (ha : ∀ c ∈ a.data, c ≠ '[' ∧ c ≠ ']' ∧ c ≠ '(' ∧ c ≠ ')' ∧ c ≠ ',') :
    parseVersionChangeString a = a
    ∧ parseVersionChangeString ("[" ++ a ++ "]") = a
    ∧ parseVersionChangeString ("[" ++ a ++ ", " ++ b ++ "]") = a := by
  obtain ⟨chars⟩ := a
  simp only at ha
  have htake : ∀ tail : List Char,
      (chars ++ ',' :: tail).takeWhile (fun c => decide (c ≠ ',')) = chars := by
    intro tail
    rw [List.takeWhile_append_of_pos (by
      intro c hc
      simpa using (ha c hc).2.2.2.2)]
    simp
  have htakeAll : chars.takeWhile (fun c => decide (c ≠ ',')) = chars := by
    rw [List.takeWhile_eq_self_iff]
    intro c hc
    simpa using (ha c hc).2.2.2.2
  refine ⟨?_, ?_, ?_⟩
  · unfold parseVersionChangeString
    have h1 : ¬ (chars.head? = some '(' ∨ chars.getLast? = some ')') := by
      rintro (h | h)
      · exact (ha _ (List.mem_of_mem_head? h)).2.2.1 rfl
      · exact (ha _ (List.mem_of_mem_getLast? h)).2.2.2.1 rfl
    have h2 : ¬ (chars.head? = some '[' ∧ chars.getLast? = some ']') := by
      rintro ⟨h, _⟩
      exact (ha _ (List.mem_of_mem_head? h)).1 rfl
    simp only [h1, h2, if_false]
  · unfold parseVersionChangeString
    have hdata : ("[" ++ String.mk chars ++ "]").data = '[' :: (chars ++ [']']) := by
      simp [String.data_append]
    have hlast : ('[' :: (chars ++ [']'])).getLast? = some ']' := by
      rw [← List.cons_append, List.getLast?_append]
      simp
    have hinner : (('[' :: (chars ++ [']'])).drop 1).dropLast = chars := by
      simp [List.dropLast_concat]
    simp only [hdata, hlast, List.head?_cons, hinner, htakeAll]
    simp
  · unfold parseVersionChangeString
    have hdata : ("[" ++ String.mk chars ++ ", " ++ b ++ "]").data
        = '[' :: ((chars ++ ',' :: ' ' :: b.data) ++ [']']) := by
      simp [String.data_append]
    have hlast : ('[' :: ((chars ++ ',' :: ' ' :: b.data) ++ [']'])).getLast? = some ']' := by
      rw [← List.cons_append, List.getLast?_append]
      simp
    have hinner : (('[' :: ((chars ++ ',' :: ' ' :: b.data) ++ [']'])).drop 1).dropLast
        = chars ++ ',' :: ' ' :: b.data := by
      simp only [List.drop_succ_cons, List.drop_zero, List.dropLast_concat]
    simp only [hdata, hlast, List.head?_cons, hinner, htake]
    simp

/-- C17 at an example: `1.2.3`, `[1.2.3]` and `[1.2.3, 2.0.0]` give `1.2.3`. -/
theorem parseVersionChangeString_lower_bound_witness :
    parseVersionChangeString "1.2.3" = "1.2.3"
    ∧ parseVersionChangeString ("[" ++ "1.2.3" ++ "]") = "1.2.3"
    ∧ parseVersionChangeString ("[" ++ "1.2.3" ++ ", " ++ "2.0.0" ++ "]") = "1.2.3" :=
  parseVersionChangeString_lower_bound "1.2.3" "2.0.0" (by decide)

/-- C18: for every range expression that begins with an opening parenthesis or ends with a
closing one, `parseVersionChangeString` returns no version, the empty string. -/
theorem parseVersionChangeString_open_is_none (fixVersion : String)
    (hopen : fixVersion.data.head? = some '(' ∨ fixVersion.data.getLast? = some ')') :
    parseVersionChangeString fixVersion = "" := by
  unfold parseVersionChangeString
  simp only [hopen, if_true]

/-- C18 at the examples: the forms `(,a]`, `(,a)`, `(a,)`, `(a, b)` and `[a,b)`. -/
theorem parseVersionChangeString_open_is_none_witness :
    parseVersionChangeString "(,1.2.3]" = ""
    ∧ parseVersionChangeString "(,1.2.3)" = ""
    ∧ parseVersionChangeString "(1.2.3,)" = ""
    ∧ parseVersionChangeString "(1.2.3, 2.0.0)" = ""
    ∧ parseVersionChangeString "[1.2.3,2.0.0)" = "" :=
  ⟨parseVersionChangeString_open_is_none "(,1.2.3]" (by decide),
   parseVersionChangeString_open_is_none "(,1.2.3)" (by decide),
   parseVersionChangeString_open_is_none "(1.2.3,)" (by decide),
   parseVersionChangeString_open_is_none "(1.2.3, 2.0.0)" (by decide),
   parseVersionChangeString_open_is_none "[1.2.3,2.0.0)" (by decide)⟩

/-! ## The rows that are new -/

/-- The rows of a scan are the rows of its findings, one finding after the other. -/
theorem getScanVulnerabilitiesRows_cons (finding : Finding) (scan : List Finding) :
    getScanVulnerabilitiesRows (finding :: scan)
      = findingRows finding ++ getScanVulnerabilitiesRows scan := by
  simp [getScanVulnerabilitiesRows]

/-- Against an empty baseline every row of the candidate is new. -/
theorem createNewVulnerabilitiesRows_of_empty_baseline (source : List Finding) :
    createNewVulnerabilitiesRows [] source = getScanVulnerabilitiesRows source := by
  unfold createNewVulnerabilitiesRows
  rw [List.filter_eq_self]
  intro row _
  simp [getScanVulnerabilitiesRows]

/-- C19: for every baseline and candidate scan, a row of the candidate is among the rows
returned by `createNewVulnerabilitiesRows` if and only if no row of the baseline has its
issue identifier and its impacted component name, and only rows of the candidate are
returned; the summary, severity and CVE list of the baseline rows do not count: two
baselines with the same identities give the same rows. An empty candidate gives no row, an
empty baseline gives every candidate row, and the baseline `XRAY-1` against the candidate
`XRAY-1` (with another severity) and `XRAY-2` gives the rows of `XRAY-2` only. -/
theorem new_rows_by_identity (target source : List Finding) :
    (∀ row ∈ getScanVulnerabilitiesRows source,
      row ∈ createNewVulnerabilitiesRows target source
        ↔ ¬ ∃ old ∈ getScanVulnerabilitiesRows target,
            old.IssueId = row.IssueId
              ∧ old.ImpactedDependencyName = row.ImpactedDependencyName)
    ∧ (∀ row ∈ createNewVulnerabilitiesRows target source,
        row ∈ getScanVulnerabilitiesRows source)
    ∧ (∀ other : List Finding,
        (getScanVulnerabilitiesRows other).map rowIdentity
            = (getScanVulnerabilitiesRows target).map rowIdentity →
          createNewVulnerabilitiesRows other source
            = createNewVulnerabilitiesRows target source)
    ∧ createNewVulnerabilitiesRows target [] = []
    ∧ createNewVulnerabilitiesRows [] source = getScanVulnerabilitiesRows source
    ∧ createNewVulnerabilitiesRows [findingXray1]
          [{ findingXray1 with Severity := "low", Summary := "", Cves := [] }, findingXray2]
        = getScanVulnerabilitiesRows [findingXray2] := by
  refine ⟨?_, ?_, ?_, ?_, ?_, by decide⟩
  · intro row hrow
    unfold createNewVulnerabilitiesRows
    simp only [List.mem_filter, hrow, true_and, decide_eq_true_eq, List.mem_map, rowIdentity,
      Prod.mk.injEq]
  · intro row hrow
    unfold createNewVulnerabilitiesRows at hrow
    exact (List.mem_filter.mp hrow).1
  · intro other hsame
    unfold createNewVulnerabilitiesRows
    rw [hsame]
  · rfl
  · exact createNewVulnerabilitiesRows_of_empty_baseline source

/-! ## One row per finding and component -/

/-- C20: for every scan, `getScanVulnerabilitiesRows` gives one row per finding and
impacted component: the rows of a finding come together, as many as its components, with
its issue identifier, summary and severity and the names of its components, distinct when
the names are; the number of rows of the scan is the sum of the numbers of components of
its findings, so two findings with two components each give four rows, and the rows that
are new against an empty baseline are these rows. -/
theorem rows_per_finding_and_component (scan : List Finding) :
    (getScanVulnerabilitiesRows scan).length = (scan.map (fun f => f.Components.length)).sum
    ∧ (∀ (finding : Finding) (rest : List Finding),
        getScanVulnerabilitiesRows (finding :: rest)
          = findingRows finding ++ getScanVulnerabilitiesRows rest)
    ∧ (∀ finding : Finding,
        (findingRows finding).length = finding.Components.length
        ∧ (findingRows finding).map (fun row => row.ImpactedDependencyName)
            = finding.Components
        ∧ (∀ row ∈ findingRows finding,
            row.IssueId = finding.IssueId ∧ row.Summary = finding.Summary
              ∧ row.Severity = finding.Severity)
        ∧ (finding.Components.Nodup → (findingRows finding).Nodup))
    ∧ (∀ row, row ∈ getScanVulnerabilitiesRows scan
        ↔ ∃ finding ∈ scan, ∃ name ∈ finding.Components,
            row = ⟨finding.IssueId, finding.Summary, finding.Severity, finding.Cves, name⟩)
    ∧ createNewVulnerabilitiesRows [] scan = getScanVulnerabilitiesRows scan
    ∧ (getScanVulnerabilitiesRows [findingXray1, findingXray2]).length = 4 := by
  refine ⟨?_, getScanVulnerabilitiesRows_cons, ?_, ?_, ?_, by decide⟩
  · induction scan with
    | nil => rfl
    | cons finding rest ih =>
      rw [getScanVulnerabilitiesRows_cons, List.length_append, ih]
      simp [findingRows]
  · intro finding
    refine ⟨by simp [findingRows], by simp [findingRows, Function.comp_def], ?_, ?_⟩
    · intro row hrow
      obtain ⟨name, _, hname⟩ := List.mem_map.mp hrow
      rw [← hname]
      exact ⟨rfl, rfl, rfl⟩
    · intro hnodup
      unfold findingRows
      refine List.Nodup.map ?_ hnodup
      intro x y hxy
      exact congrArg VulnerabilityOrViolationRow.ImpactedDependencyName hxy
  · intro row
    simp only [getScanVulnerabilitiesRows, List.mem_flatten, List.mem_map, findingRows]
    constructor
    · rintro ⟨rows, ⟨finding, hfinding, hrows⟩, hrow⟩
      rw [← hrows] at hrow
      obtain ⟨name, hname, hrowname⟩ := List.mem_map.mp hrow
      exact ⟨finding, hfinding, name, hname, hrowname.symm⟩
    · rintro ⟨finding, hfinding, name, hname, hrow⟩
      exact ⟨_, ⟨finding, hfinding, rfl⟩, List.mem_map.mpr ⟨name, hname, hrow.symm⟩⟩
  · exact createNewVulnerabilitiesRows_of_empty_baseline scan

/-! ## Filling the map twice -/

/-- A round of the loop removes no key. -/
theorem mapKeys_fillDependency_mono (m : DepMap) (dependency : gavCoordinate) (k : String)
    (hk : k ∈ mapKeys m) : k ∈ mapKeys (fillDependency m dependency) := by
  by_cases hversion : dependency.Version = ""
  · rw [fillDependency_of_empty_version m dependency hversion]; exact hk
  · exact (mem_mapKeys_fillDependency m dependency hversion k).mpr (Or.inr hk)

/-- A round of the loop on a coordinate with a version, in two steps: the first write
(lines 108-110) gives a map with the same properties lists, and the second (lines 112-119)
appends the name of the property when the version refers to one that is not yet listed. -/
theorem fillDependency_steps (m : DepMap) (dependency : gavCoordinate)
    (hversion : dependency.Version ≠ "") :
    ∃ m1 : DepMap, (∀ k, mapProperties m1 k = mapProperties m k)
      ∧ fillDependency m dependency =
        if stringsHasPrefix dependency.Version "$\x7b" then
          if stringsTrim dependency.Version "$\x7b\x7d"
              ∈ mapProperties m (depName dependency) then m1
          else
            mapSet m1 (depName dependency)
              { properties := mapProperties m (depName dependency)
                  ++ [stringsTrim dependency.Version "$\x7b\x7d"]
                currentVersion := dependency.Version
                foundInDependencyManagement := dependency.foundInDependencyManagement }
        else m1 := by
  refine ⟨_, mapProperties_after_first_write m dependency, ?_⟩
  unfold fillDependency
  simp only [hversion, if_false, mapProperties_after_first_write]

/-- A round of the loop removes no name from a properties list. -/
theorem mapProperties_fillDependency_mono (m : DepMap) (dependency : gavCoordinate)
    (k p : String) (hp : p ∈ mapProperties m k) :
    p ∈ mapProperties (fillDependency m dependency) k := by
  by_cases hversion : dependency.Version = ""
  · rw [fillDependency_of_empty_version m dependency hversion]; exact hp
  · obtain ⟨m1, h1, hfill⟩ := fillDependency_steps m dependency hversion
    rw [hfill]
    split
    · split
      · rw [h1]; exact hp
      · rw [mapProperties_mapSet]
        split
        · next hk =>
          rw [hk]
          exact List.mem_append_left _ hp
        · rw [h1]; exact hp
    · rw [h1]; exact hp

/-- A round of the loop changes nothing for a coordinate that is recorded. -/
theorem fillDependency_of_recorded (m : DepMap) (dependency : gavCoordinate)
    (h : recorded m dependency) : fillDependency m dependency = m := by
  rcases h with hversion | ⟨hkey, hprop⟩
  · exact fillDependency_of_empty_version m dependency hversion
  · unfold fillDependency
    split
    · rfl
    · have hsome : (mapGet m (depName dependency)).isNone = false := by
        have := (mapGet_isSome_iff m (depName dependency)).mpr hkey
        cases hget : mapGet m (depName dependency) with
        | none => rw [hget] at this; simp at this
        | some v => rfl
      simp only [hsome, Bool.false_eq_true, if_false]
      split
      · next hstarts => simp only [hprop hstarts, if_true]
      · rfl

/-- After a round of the loop on a coordinate, the coordinate is recorded. -/
theorem recorded_fillDependency_self (m : DepMap) (dependency : gavCoordinate) :
    recorded (fillDependency m dependency) dependency := by
  by_cases hversion : dependency.Version = ""
  · exact Or.inl hversion
  · refine Or.inr ⟨(mem_mapKeys_fillDependency m dependency hversion _).mpr (Or.inl rfl), ?_⟩
    intro hstarts
    obtain ⟨m1, h1, hfill⟩ := fillDependency_steps m dependency hversion
    rw [hfill]
    simp only [hstarts, if_true]
    split
    · next hmem => rw [h1]; exact hmem
    · rw [mapProperties_mapSet]
      simp

/-- A coordinate that is recorded stays so after a round of the loop on any coordinate. -/
theorem recorded_fillDependency_mono (m : DepMap) (dependency other : gavCoordinate)
    (h : recorded m dependency) : recorded (fillDependency m other) dependency := by
  rcases h with hversion | ⟨hkey, hprop⟩
  · exact Or.inl hversion
  · exact Or.inr ⟨mapKeys_fillDependency_mono m other _ hkey,
      fun hstarts => mapProperties_fillDependency_mono m other _ _ (hprop hstarts)⟩

/-- A coordinate that is recorded stays so through the loop. -/
theorem recorded_foldl_mono (dependencies : List gavCoordinate) :
    ∀ (m : DepMap) (dependency : gavCoordinate), recorded m dependency →
      recorded (dependencies.foldl fillDependency m) dependency := by
  induction dependencies with
  | nil => intro m dependency h; exact h
  | cons other rest ih =>
    intro m dependency h
    exact ih _ dependency (recorded_fillDependency_mono m dependency other h)

/-- After the loop every coordinate of the list is recorded. -/
theorem recorded_foldl (dependencies : List gavCoordinate) :
    ∀ (m : DepMap), ∀ dependency ∈ dependencies,
      recorded (dependencies.foldl fillDependency m) dependency := by
  induction dependencies with
  | nil => intro m dependency h; simp at h
  | cons first rest ih =>
    intro m dependency h
    rw [List.foldl_cons]
    rcases List.mem_cons.mp h with hfirst | hrest
    · rw [hfirst]
      exact recorded_foldl_mono rest _ first (recorded_fillDependency_self m first)
    · exact ih _ dependency hrest

/-- The loop changes nothing when every coordinate of the list is recorded. -/
theorem foldl_fillDependency_of_recorded (dependencies : List gavCoordinate) :
    ∀ (m : DepMap), (∀ dependency ∈ dependencies, recorded m dependency) →
      dependencies.foldl fillDependency m = m := by
  induction dependencies with
  | nil => intro m _; rfl
  | cons first rest ih =>
    intro m h
    rw [List.foldl_cons, fillDependency_of_recorded m first (h first (List.mem_cons_self _ _))]
    exact ih m (fun d hd => h d (List.mem_cons_of_mem _ hd))

/-- C24: for every dependency map and every list of collected coordinates, the loop of
`fillDependenciesMap` returns a map on which the same loop over the same coordinates
changes nothing: same keys, same properties lists, same current version and flag in every
entry; so a handler that has read a pom reads it again without change. -/
theorem fillDependencies_twice (m : DepMap) (dependencies : List gavCoordinate) :
    (∃ filled : DepMap,
      fillDependencies (some m) dependencies = .returned (some filled)
      ∧ fillDependencies (some filled) dependencies = .returned (some filled))
    ∧ ∀ {W : Type} (env : Env W) (w : W) (path : String) (mph mph1 : MavenPackageHandler),
        mph.mavenDepToPropertyMap = some m →
        fillDependenciesMap env mph w path = .returned (mph1, none) →
        fillDependenciesMap env mph1 w path = .returned (mph1, none) := by
  have htwice : ∀ (m0 : DepMap) (ds : List gavCoordinate),
      ds.foldl fillDependency (ds.foldl fillDependency m0) = ds.foldl fillDependency m0 :=
    fun m0 ds => foldl_fillDependency_of_recorded ds _ (recorded_foldl ds m0)
  constructor
  · refine ⟨dependencies.foldl fillDependency m, fillDependencies_some dependencies m, ?_⟩
    rw [fillDependencies_some, htwice]
  · intro W env w path mph mph1 hmap hfirst
    unfold fillDependenciesMap at hfirst ⊢
    cases hread : env.ReadFile w path with
    | error failure => simp [hread] at hfirst
    | ok contentBytes =>
      simp only [hread] at hfirst ⊢
      cases hparse : getMavenDependencies env contentBytes with
      | error failure => simp [hparse] at hfirst
      | ok mavenDependencies =>
        simp only [hparse, hmap, fillDependencies_some, Outcome.returned.injEq,
          Prod.mk.injEq, and_true] at hfirst ⊢
        rw [← hfirst]
        simp only [fillDependencies_some, htwice]


/-! ## A second declaration with a literal version -/

/-- The loop removes no key. -/
theorem mapKeys_foldl_mono (dependencies : List gavCoordinate) :
    ∀ (m : DepMap) (k : String), k ∈ mapKeys m →
      k ∈ mapKeys (dependencies.foldl fillDependency m) := by
  induction dependencies with
  | nil => intro m k h; exact h
  | cons first rest ih =>
    intro m k h
    exact ih _ k (mapKeys_fillDependency_mono m first k h)

/-- C25: for every dependency map and every collected coordinate whose key is in the map
and whose version does not start with a dollar sign and an opening brace, which includes
every literal version, the round of the loop of `fillDependenciesMap` on that coordinate
returns the map unchanged, so the entry of the key keeps the current version and the flag
recorded first; and no round on any coordinate, and no run of the loop, removes a key. -/
theorem fillDependency_keeps_first_declaration (m : DepMap) (dependency : gavCoordinate)
    (hkey : depName dependency ∈ mapKeys m)
    (hliteral : ¬ stringsHasPrefix dependency.Version "$\x7b") :
    fillDependencies (some m) [dependency] = .returned (some m)
    ∧ fillDependency m dependency = m
    ∧ mapGet (fillDependency m dependency) (depName dependency)
        = mapGet m (depName dependency)
    ∧ (∀ (other : gavCoordinate) (k : String), k ∈ mapKeys m →
        k ∈ mapKeys (fillDependency m other))
    ∧ (∀ (dependencies : List gavCoordinate) (k : String), k ∈ mapKeys m →
        ∃ filled, fillDependencies (some m) dependencies = .returned (some filled)
          ∧ k ∈ mapKeys filled) := by
  have hsame : fillDependency m dependency = m :=
    fillDependency_of_recorded m dependency (Or.inr ⟨hkey, fun h => absurd h hliteral⟩)
  refine ⟨?_, hsame, by rw [hsame], ?_, ?_⟩
  · rw [fillDependencies_some]
    simp only [List.foldl_cons, List.foldl_nil, hsame]
  · intro other k hk
    exact mapKeys_fillDependency_mono m other k hk
  · intro dependencies k hk
    exact ⟨_, fillDependencies_some dependencies m, mapKeys_foldl_mono dependencies m k hk⟩

/-- C25 at an example: the map holds `junit:junit` as declared first, with version `4.12`
in a plain dependencies section; a second declaration of it, with version `4.13` in a
dependency-management section, changes nothing. -/
theorem fillDependency_keeps_first_declaration_witness :
    fillDependency [("junit:junit", ⟨[], "4.12", false⟩)] ⟨"junit", "junit", "4.13", true⟩
        = [("junit:junit", ⟨[], "4.12", false⟩)]
    ∧ mapGet (fillDependency [("junit:junit", ⟨[], "4.12", false⟩)]
          ⟨"junit", "junit", "4.13", true⟩) "junit:junit"
        = some ⟨[], "4.12", false⟩ :=
  ⟨(fillDependency_keeps_first_declaration [("junit:junit", ⟨[], "4.12", false⟩)]
      ⟨"junit", "junit", "4.13", true⟩ (by decide) (by decide)).2.1,
   (fillDependency_keeps_first_declaration [("junit:junit", ⟨[], "4.12", false⟩)]
      ⟨"junit", "junit", "4.13", true⟩ (by decide) (by decide)).2.2.1⟩

/-! ## No property is listed twice -/

/-- A round of the loop keeps every properties list free of duplicates. -/
theorem nodup_mapProperties_fillDependency (m : DepMap) (dependency : gavCoordinate)
    (hm : ∀ k, (mapProperties m k).Nodup) :
    ∀ k, (mapProperties (fillDependency m dependency) k).Nodup := by
  intro k
  by_cases hversion : dependency.Version = ""
  · rw [fillDependency_of_empty_version m dependency hversion]; exact hm k
  · obtain ⟨m1, h1, hfill⟩ := fillDependency_steps m dependency hversion
    rw [hfill]
    split
    · split
      · rw [h1]; exact hm k
      · next hnew =>
        rw [mapProperties_mapSet]
        split
        · exact List.Nodup.append (hm _) (List.nodup_singleton _)
            (by
              intro a ha hb
              rw [List.mem_singleton] at hb
              exact hnew (hb ▸ ha))
        · rw [h1]; exact hm k
    · rw [h1]; exact hm k

/-- The loop keeps every properties list free of duplicates. -/
theorem nodup_mapProperties_foldl (dependencies : List gavCoordinate) :
    ∀ (m : DepMap), (∀ k, (mapProperties m k).Nodup) →
      ∀ k, (mapProperties (dependencies.foldl fillDependency m) k).Nodup := by
  induction dependencies with
  | nil => intro m hm; exact hm
  | cons first rest ih =>
    intro m hm
    exact ih _ (nodup_mapProperties_fillDependency m first hm)

/-- The command of a property names the property: two properties with the same command are
the same. -/
theorem updatePropertyArgs_injective (depDetails : pomDependencyDetails)
    (fixedVersion : String) :
    Function.Injective (updatePropertyArgs depDetails fixedVersion) := by
  intro p q h
  unfold updatePropertyArgs at h
  have h4 : "-Dproperty=" ++ p = "-Dproperty=" ++ q := by
    simp only [List.cons.injEq] at h
    exact h.2.2.2.1
  have hdata := congrArg String.data h4
  simp only [String.data_append, List.append_cancel_left_eq] at hdata
  exact String.ext hdata

/-- The commands issued by the loop of `updateProperties` are commands of the properties,
in the order of the list, each at most once per place in the list. -/
theorem updatePropertiesRange_issued_sublist {W : Type} (env : Env W)
    (mph : MavenPackageHandler) (depDetails : pomDependencyDetails) (fixedVersion : String)
    (properties : List String) :
    ∀ sys : Sys W,
      ∃ new, (updatePropertiesRange env mph depDetails fixedVersion sys properties).sys.issued
          = sys.issued ++ new
        ∧ new.Sublist (properties.map (updatePropertyArgs depDetails fixedVersion)) := by
  induction properties with
  | nil => intro sys; exact ⟨[], by simp [updatePropertiesRange], by simp⟩
  | cons property rest ih =>
    intro sys
    simp only [updatePropertiesRange, List.map_cons]
    have hrun := runMvnCommand_issued env mph
      { sys with
        logged := sys.logged ++ [(LogLevel.Debug, "Running '" ++
          ("mvn " ++ stringsJoin (updatePropertyArgs depDetails fixedVersion property) " ")
          ++ "'")] }
      (updatePropertyArgs depDetails fixedVersion property)
    have hnew1 : ∃ new1 : List (List String),
        (runMvnCommand env mph
          { sys with
            logged := sys.logged ++ [(LogLevel.Debug, "Running '" ++
              ("mvn " ++ stringsJoin (updatePropertyArgs depDetails fixedVersion property)
                " ") ++ "'")] }
          (updatePropertyArgs depDetails fixedVersion property)).sys.issued
            = sys.issued ++ new1
        ∧ new1.Sublist [updatePropertyArgs depDetails fixedVersion property] := by
      rcases hrun with h | h
      · exact ⟨[], by simp [h], by simp⟩
      · exact ⟨[_], h, List.Sublist.refl _⟩
    obtain ⟨new1, h1, hsub1⟩ := hnew1
    split
    · exact ⟨new1, h1, hsub1.trans (by simp)⟩
    · obtain ⟨new2, h2, hsub2⟩ := ih (runMvnCommand env mph
        { sys with
          logged := sys.logged ++ [(LogLevel.Debug, "Running '" ++
            ("mvn " ++ stringsJoin (updatePropertyArgs depDetails fixedVersion property) " ")
            ++ "'")] }
        (updatePropertyArgs depDetails fixedVersion property)).sys
      refine ⟨new1 ++ new2, ?_, ?_⟩
      · rw [h2, h1, List.append_assoc]
      · exact List.Sublist.append hsub1 hsub2


/-- C26: if no properties list of the map holds a name twice before the loop of
`fillDependenciesMap` runs, none does afterwards, and the same holds for the map of a
handler across a whole call of `fillDependenciesMap`; so every properties list filled from
the empty map is free of duplicates, and for the entry of a key of such a map the commands
that `updateProperties` issues are set-property commands of its properties, in the order
of the list and none of them twice. -/
theorem properties_stay_duplicate_free (m : DepMap)
    (hm : ∀ k, (mapProperties m k).Nodup) :
    (∀ (dependencies : List gavCoordinate),
      ∃ filled, fillDependencies (some m) dependencies = .returned (some filled)
        ∧ ∀ k, (mapProperties filled k).Nodup)
    ∧ (∀ {W : Type} (env : Env W) (w : W) (path : String)
        (mph mph1 : MavenPackageHandler) (err : Option GoError),
        mph.mavenDepToPropertyMap = some m →
        fillDependenciesMap env mph w path = .returned (mph1, err) →
        ∃ filled, mph1.mavenDepToPropertyMap = some filled
          ∧ ∀ k, (mapProperties filled k).Nodup)
    ∧ (∀ (dependencies : List gavCoordinate),
      ∃ filled, fillDependencies (some []) dependencies = .returned (some filled)
        ∧ ∀ k, (mapProperties filled k).Nodup)
    ∧ (∀ {W : Type} (env : Env W) (mph : MavenPackageHandler) (sys : Sys W)
        (k : String) (depDetails : pomDependencyDetails) (fixedVersion : String),
        mapGet m k = some depDetails →
        ∃ new, (updateProperties env mph sys depDetails fixedVersion).sys.issued
            = sys.issued ++ new
          ∧ new.Nodup
          ∧ new.Sublist (depDetails.properties.map
              (updatePropertyArgs depDetails fixedVersion))) := by
  refine ⟨?_, ?_, ?_, ?_⟩
  · intro dependencies
    exact ⟨_, fillDependencies_some dependencies m,
      nodup_mapProperties_foldl dependencies m hm⟩
  · intro W env w path mph mph1 err hmap hfill
    unfold fillDependenciesMap at hfill
    cases hread : env.ReadFile w path with
    | error failure =>
      simp only [hread, Outcome.returned.injEq, Prod.mk.injEq] at hfill
      exact ⟨m, by rw [← hfill.1]; exact hmap, hm⟩
    | ok contentBytes =>
      simp only [hread] at hfill
      cases hparse : getMavenDependencies env contentBytes with
      | error failure =>
        simp only [hparse, Outcome.returned.injEq, Prod.mk.injEq] at hfill
        exact ⟨m, by rw [← hfill.1]; exact hmap, hm⟩
      | ok mavenDependencies =>
        simp only [hparse, hmap, fillDependencies_some, Outcome.returned.injEq,
          Prod.mk.injEq] at hfill
        exact ⟨_, by rw [← hfill.1], nodup_mapProperties_foldl mavenDependencies m hm⟩
  · intro dependencies
    exact ⟨_, fillDependencies_some dependencies [],
      nodup_mapProperties_foldl dependencies [] (fun k => by simp [mapProperties, mapGet])⟩
  · intro W env mph sys k depDetails fixedVersion hget
    have hprops : depDetails.properties.Nodup := by
      have := hm k
      simpa [mapProperties, hget] using this
    obtain ⟨new, hnew, hsub⟩ := updatePropertiesRange_issued_sublist env mph depDetails
      fixedVersion depDetails.properties sys
    have hnodup : new.Nodup :=
      hsub.nodup (hprops.map (updatePropertyArgs_injective depDetails fixedVersion))
    exact ⟨new, hnew, hnodup, hsub⟩


/-- C26 at an example: the map of the example handler, in which `org.lib:core` lists the
property `lib.version` once; a second declaration of `org.lib:core` referring to the same
property leaves the list as it is. -/
theorem properties_stay_duplicate_free_witness :
    (∀ k, (mapProperties [("org.lib:core", ⟨["lib.version"], "$\x7blib.version\x7d", false⟩)]
        k).Nodup)
    ∧ ∃ filled,
        fillDependencies
            (some [("org.lib:core", ⟨["lib.version"], "$\x7blib.version\x7d", false⟩)])
            [⟨"org.lib", "core", "$\x7blib.version\x7d", true⟩]
          = .returned (some filled)
        ∧ ∀ k, (mapProperties filled k).Nodup :=
  have hm : ∀ k, (mapProperties
      [("org.lib:core", ⟨["lib.version"], "$\x7blib.version\x7d", false⟩)] k).Nodup := by
    intro k
    by_cases hk : "org.lib:core" = k
    · subst hk; decide
    · simp [mapProperties, mapGet, hk]
  ⟨hm, (properties_stay_duplicate_free
    [("org.lib:core", ⟨["lib.version"], "$\x7blib.version\x7d", false⟩)] hm).1
    [⟨"org.lib", "core", "$\x7blib.version\x7d", true⟩]⟩


/-! ## The walk, node by node -/

/-- What `trimBoth` removes and what it leaves: the list is the result between two runs of
elements that satisfy `p`, and the result neither begins nor ends with such an element. -/
theorem trimBoth_spec (p : Char → Bool) (l : List Char) :
    (∃ before after : List Char,
        l = before ++ trimBoth p l ++ after
        ∧ (∀ c ∈ before, p c = true) ∧ (∀ c ∈ after, p c = true))
      ∧ (∀ c ∈ (trimBoth p l).head?, p c = false)
      ∧ (∀ c ∈ (trimBoth p l).getLast?, p c = false) := by
  have hsplit : l.dropWhile p
      = trimBoth p l ++ ((l.dropWhile p).reverse.takeWhile p).reverse := by
    unfold trimBoth
    rw [← List.reverse_append, List.takeWhile_append_dropWhile, List.reverse_reverse]
  refine ⟨⟨l.takeWhile p, ((l.dropWhile p).reverse.takeWhile p).reverse, ?_, ?_, ?_⟩, ?_, ?_⟩
  · rw [List.append_assoc, ← hsplit, List.takeWhile_append_dropWhile]
  · intro c hc; exact List.mem_takeWhile_imp hc
  · intro c hc; exact List.mem_takeWhile_imp (List.mem_reverse.mp hc)
  · intro c hc
    have hhead : (l.dropWhile p).head? = some c := by
      rw [hsplit, List.head?_append]
      rw [Option.mem_def] at hc
      rw [hc]; rfl
    have := List.head?_dropWhile_not p l
    rw [hhead] at this
    exact this
  · intro c hc
    unfold trimBoth at hc
    rw [List.getLast?_reverse, Option.mem_def] at hc
    have := List.head?_dropWhile_not p (l.dropWhile p).reverse
    rw [hc] at this
    exact this

/-- The Go `strings.TrimSpace` returns its argument without the white space at its ends. -/
theorem stringsTrimSpace_spec (s : String) : isSpaceTrimOf (stringsTrimSpace s) s := by
  obtain ⟨⟨before, after, hl, hb, ha⟩, hhead, hlast⟩ := trimBoth_spec unicodeIsSpace s.data
  exact ⟨⟨before, after, hl, hb, ha⟩, hhead, hlast⟩

mutual
/-- The coordinates collected from a plugin, declaration by declaration. -/
theorem collectMavenPlugins_walk (inside : Bool) :
    ∀ plugin : mavenPlugin,
      collectMavenPlugins plugin = flaggedCoordinates walkFlag (pluginDeclarations inside plugin)
  | .mk gav NestedPlugins => by
    have ih := collectMavenPluginsRange_walk inside NestedPlugins
    have hgav : ({ gav with foundInDependencyManagement := gav.foundInDependencyManagement }
        : gavCoordinate) = gav := by cases gav; rfl
    simp only [collectMavenPlugins, pluginDeclarations, ih, flaggedCoordinates_cons, walkFlag,
      if_true, hgav]
/-- The coordinates collected from a list of plugins, declaration by declaration. -/
theorem collectMavenPluginsRange_walk (inside : Bool) :
    ∀ plugins : List mavenPlugin,
      collectMavenPluginsRange plugins
        = flaggedCoordinates walkFlag (pluginDeclarationsRange inside plugins)
  | [] => by simp [collectMavenPluginsRange, pluginDeclarationsRange, flaggedCoordinates]
  | plugin :: rest => by
    simp only [collectMavenPluginsRange, pluginDeclarationsRange, flaggedCoordinates_append,
      collectMavenPlugins_walk inside plugin, collectMavenPluginsRange_walk inside rest]
end

mutual
/-- The coordinates collected from a tree walked with the flag `inside`, declaration by
declaration. -/
theorem collectMavenDependencies_walk (inside : Bool) :
    ∀ tree : mavenDependency,
      collectMavenDependencies inside tree
        = flaggedCoordinates walkFlag (declarations inside tree)
  | .mk gav Dependencies DependencyManagement Plugins => by
    have ih1 := collectMavenDependenciesRange_walk inside Dependencies
    have ih2 := collectMavenDependenciesRange_walk true DependencyManagement
    have ih3 := collectMavenPluginsRange_walk inside Plugins
    simp only [collectMavenDependencies, declarations, ih1, ih2, ih3, List.cons_append,
      flaggedCoordinates_cons, flaggedCoordinates_append, List.append_assoc, walkFlag,
      Bool.false_eq_true, if_false]
/-- The coordinates collected from a list of trees, each walked with the flag `inside`. -/
theorem collectMavenDependenciesRange_walk (inside : Bool) :
    ∀ trees : List mavenDependency,
      collectMavenDependenciesRange inside trees
        = flaggedCoordinates walkFlag (declarationsRange inside trees)
  | [] => by simp [collectMavenDependenciesRange, declarationsRange, flaggedCoordinates]
  | tree :: rest => by
    simp only [collectMavenDependenciesRange, declarationsRange, flaggedCoordinates_append,
      collectMavenDependencies_walk inside tree,
      collectMavenDependenciesRange_walk inside rest]
end

/-- C27: for every manifest tree and either value of the flag it is walked with,
`collectMavenDependencies` returns one coordinate for each declaration of the tree whose
group id, artifact id and version are not all empty, and none for the others, in the
order of `declarations`: the node, then its dependencies, then its dependency-management
entries, then its plugins with their nested plugins; the group id, artifact id and version
of the coordinate returned for a declaration are those of the declaration without the
white space at their ends. -/
theorem walk_is_preorder_and_trims (inside : Bool) (tree : mavenDependency) :
    List.Forall₂
        (fun (c : gavCoordinate) (d : Declaration) =>
          isSpaceTrimOf c.GroupId d.gav.GroupId
          ∧ isSpaceTrimOf c.ArtifactId d.gav.ArtifactId
          ∧ isSpaceTrimOf c.Version d.gav.Version
          ∧ c.foundInDependencyManagement = walkFlag d)
        (collectMavenDependencies inside tree)
        ((declarations inside tree).filter
          (fun d => !decide (d.gav.GroupId = "" ∧ d.gav.ArtifactId = "" ∧ d.gav.Version = "")))
    ∧ (collectMavenDependencies inside tree).length
        = ((declarations inside tree).filter
            (fun d => !decide (d.gav.GroupId = "" ∧ d.gav.ArtifactId = ""
              ∧ d.gav.Version = ""))).length
    ∧ ∀ c ∈ collectMavenDependencies inside tree,
        spaceTrimmed c.GroupId ∧ spaceTrimmed c.ArtifactId ∧ spaceTrimmed c.Version := by
  have hwalk := collectMavenDependencies_walk inside tree
  have hall : List.Forall₂
      (fun (c : gavCoordinate) (d : Declaration) =>
        isSpaceTrimOf c.GroupId d.gav.GroupId
        ∧ isSpaceTrimOf c.ArtifactId d.gav.ArtifactId
        ∧ isSpaceTrimOf c.Version d.gav.Version
        ∧ c.foundInDependencyManagement = walkFlag d)
      (collectMavenDependencies inside tree)
      ((declarations inside tree).filter
        (fun d => !decide (d.gav.GroupId = "" ∧ d.gav.ArtifactId = ""
          ∧ d.gav.Version = ""))) := by
    rw [hwalk]
    unfold flaggedCoordinates
    rw [List.forall₂_map_left_iff]
    exact List.forall₂_same.mpr (fun d _ =>
      ⟨stringsTrimSpace_spec _, stringsTrimSpace_spec _, stringsTrimSpace_spec _, rfl⟩)
  refine ⟨hall, hall.length_eq, ?_⟩
  intro c hc
  rw [hwalk] at hc
  unfold flaggedCoordinates at hc
  obtain ⟨d, _, hd⟩ := List.mem_map.mp hc
  rw [← hd]
  exact ⟨(stringsTrimSpace_spec _).2, (stringsTrimSpace_spec _).2, (stringsTrimSpace_spec _).2⟩


/-! ## The pom paths after a discovery that succeeds -/

/-- The loop of `getProjectPoms` over lines of which every non-empty one decodes: it
appends the decoded paths, in the order of the lines, and returns no error. -/
theorem getProjectPomsRange_of_decoded {W : Type} (env : Env W) (lines : List String) :
    ∀ (pomPaths decoded : List pomPath),
      (lines.filter (fun line => decide (line ≠ ""))).map
          (fun line => env.jsonUnmarshal (escapeBackslashes line))
        = decoded.map Except.ok →
      getProjectPomsRange env pomPaths lines = (pomPaths ++ decoded, none) := by
  induction lines with
  | nil =>
    intro pomPaths decoded h
    cases decoded with
    | nil => simp [getProjectPomsRange]
    | cons pp rest => simp at h
  | cons line rest ih =>
    intro pomPaths decoded h
    unfold getProjectPomsRange
    by_cases hline : line = ""
    · simp only [hline, if_true]
      apply ih
      simpa [hline] using h
    · simp only [hline, if_false]
      have hfilter : (line :: rest).filter (fun line => decide (line ≠ ""))
          = line :: rest.filter (fun line => decide (line ≠ "")) := by
        simp [List.filter, hline]
      rw [hfilter, List.map_cons] at h
      cases decoded with
      | nil => simp at h
      | cons pp more =>
        rw [List.map_cons, List.cons.injEq] at h
        simp only [h.1]
        rw [ih (pomPaths ++ [pp]) more h.2, List.append_assoc]
        rfl

/-- What `getProjectPoms` does with the output that `runMvnCommand` returns to it, for a
handler without pom paths and a call of `runMvnCommand` that returns no error: if that
output has no non-empty line, `getProjectPoms` returns the error that no pom was found and
the list of pom paths stays empty; if it has a non-empty line and every non-empty line
decodes, `getProjectPoms` returns no error and the list holds the paths decoded from the
non-empty lines, one for each, in the order of the output. -/
theorem getProjectPoms_of_discovery {W : Type} (env : Env W) (mph : MavenPackageHandler)
    (sys : Sys W) (hempty : mph.pomPaths = [])
    (hrun : (runMvnCommand env mph sys gavReaderGoals).err = none) :
    ((∀ line ∈ stringsSplitLines (runMvnCommand env mph sys gavReaderGoals).readerOutput,
        line = "") →
      (getProjectPoms env mph sys).err
          = some (.errorString "couldn't find any pom.xml files in the current project")
        ∧ (getProjectPoms env mph sys).mph.pomPaths = [])
    ∧ (∀ decoded : List pomPath,
        ((stringsSplitLines (runMvnCommand env mph sys gavReaderGoals).readerOutput).filter
            (fun line => decide (line ≠ ""))).map
            (fun line => env.jsonUnmarshal (escapeBackslashes line))
          = decoded.map Except.ok →
        decoded ≠ [] →
        (getProjectPoms env mph sys).err = none
          ∧ (getProjectPoms env mph sys).mph.pomPaths = decoded
          ∧ (getProjectPoms env mph sys).mph.pomPaths.length
              = ((stringsSplitLines
                  (runMvnCommand env mph sys gavReaderGoals).readerOutput).filter
                  (fun line => decide (line ≠ ""))).length) := by
  constructor
  · intro hlines
    have hfilter :
        (stringsSplitLines (runMvnCommand env mph sys gavReaderGoals).readerOutput).filter
          (fun line => decide (line ≠ "")) = [] := by
      rw [List.filter_eq_nil_iff]
      intro line hmem
      simp [hlines line hmem]
    have hloop := getProjectPomsRange_of_decoded env
      (stringsSplitLines (runMvnCommand env mph sys gavReaderGoals).readerOutput)
      mph.pomPaths [] (by rw [hfilter]; rfl)
    rw [hempty] at hloop
    unfold getProjectPoms
    simp only [hrun, hempty, hloop, List.append_nil, List.length_nil, gt_iff_lt,
      Nat.lt_irrefl, if_false, if_true, and_self]
  · intro decoded hdecoded hne
    have hloop := getProjectPomsRange_of_decoded env
      (stringsSplitLines (runMvnCommand env mph sys gavReaderGoals).readerOutput)
      mph.pomPaths decoded hdecoded
    have hpos : ¬ decoded.length = 0 := fun h => hne (List.length_eq_zero.mp h)
    have hcount := congrArg List.length hdecoded
    simp only [List.length_map] at hcount
    rw [hempty] at hloop
    unfold getProjectPoms
    simp only [hrun, hempty, hloop, List.nil_append, hpos, List.length_nil, gt_iff_lt,
      Nat.lt_irrefl, if_false, true_and]
    exact hcount.symm

/-- The example world without a repository: the reader prints the line of `/work/pom.xml`
followed by a line feed, so the output returned has one non-empty line, which decodes. -/
theorem getProjectPoms_of_discovery_witness :
    (getProjectPoms (exampleEnv examplePom none "") freshHandler freshSys).err = none
    ∧ (getProjectPoms (exampleEnv examplePom none "") freshHandler freshSys).mph.pomPaths
        = [⟨"/work/pom.xml"⟩] :=
  ⟨((getProjectPoms_of_discovery (exampleEnv examplePom none "") freshHandler freshSys rfl
      rfl).2 [⟨"/work/pom.xml"⟩] rfl (by decide)).1,
   ((getProjectPoms_of_discovery (exampleEnv examplePom none "") freshHandler freshSys rfl
      rfl).2 [⟨"/work/pom.xml"⟩] rfl (by decide)).2.1⟩


/-! ## A discovery that fails half-way -/

/-- C28, at the failing input: in the world whose reader output has the line of
`/work/pom.xml` followed by a line that is not valid JSON, `getProjectPoms` on a handler
without pom paths returns the decoding error and leaves the path of the first line in the
list of pom paths; the next call on the handler it left finds a list that is not empty,
returns no error and runs no command, so the partial list stands for the project. -/
theorem getProjectPoms_keeps_partial_list :
    freshHandler.pomPaths = []
    ∧ (getProjectPoms truncatedReaderEnv freshHandler freshSys).err
        = some (.errorString "unexpected end of JSON input")
    ∧ (getProjectPoms truncatedReaderEnv freshHandler freshSys).mph.pomPaths
        = [⟨"/work/pom.xml"⟩]
    ∧ (getProjectPoms truncatedReaderEnv
          (getProjectPoms truncatedReaderEnv freshHandler freshSys).mph
          (getProjectPoms truncatedReaderEnv freshHandler freshSys).sys).err = none
    ∧ (getProjectPoms truncatedReaderEnv
          (getProjectPoms truncatedReaderEnv freshHandler freshSys).mph
          (getProjectPoms truncatedReaderEnv freshHandler freshSys).sys).mph.pomPaths
        = [⟨"/work/pom.xml"⟩]
    ∧ (getProjectPoms truncatedReaderEnv
          (getProjectPoms truncatedReaderEnv freshHandler freshSys).mph
          (getProjectPoms truncatedReaderEnv freshHandler freshSys).sys).sys.issued
        = (getProjectPoms truncatedReaderEnv freshHandler freshSys).sys.issued := by
  refine ⟨rfl, ?_, ?_, ?_, ?_, ?_⟩ <;> decide

/-! ## The output of a run through the build-info extractor -/

/-- With a repository set, `runMvnCommand` returns an empty output whatever the run
wrote: the destination of `io.ReadFull` has length zero. -/
theorem runMvnCommand_readerOutput_of_depsRepo {W : Type} (env : Env W)
    (mph : MavenPackageHandler) (sys : Sys W) (goals : List String)
    (hrepo : mph.depsRepo ≠ "") :
    (runMvnCommand env mph sys goals).readerOutput = "" := by
  unfold runMvnCommand
  simp only [hrepo, if_false]
  cases env.ReadMavenConfig sys.world mph.depsRepo mph.ServerDetails with
  | some failure => rfl
  | none =>
    simp only
    cases (env.RunMvn sys.world mph.depsRepo mph.ServerDetails goals).err <;> rfl

/-- C30, at the failing input: in the example world the run of the reader plugin writes
the line of `/work/pom.xml` to its output writer in both modes; without a repository
`runMvnCommand` returns that output and `getProjectPoms` finds the pom; with the repository
`maven-remote` the run succeeds as well, but `runMvnCommand` returns the empty output and
`getProjectPoms` returns the error that no pom was found. -/
theorem runMvnCommand_drops_output_with_depsRepo :
    ((exampleEnv examplePom none "").RunMvn () "maven-remote" none gavReaderGoals).output
        = examplePomLine ++ "\n"
    ∧ (runMvnCommand (exampleEnv examplePom none "") freshHandler freshSys
          gavReaderGoals).readerOutput = examplePomLine ++ "\n"
    ∧ (runMvnCommand (exampleEnv examplePom none "") repositoryHandler freshSys
          gavReaderGoals).err = none
    ∧ (runMvnCommand (exampleEnv examplePom none "") repositoryHandler freshSys
          gavReaderGoals).readerOutput = ""
    ∧ (getProjectPoms (exampleEnv examplePom none "") freshHandler freshSys).err = none
    ∧ (getProjectPoms (exampleEnv examplePom none "") repositoryHandler freshSys).err
        = some (.errorString "couldn't find any pom.xml files in the current project") := by
  refine ⟨?_, ?_, ?_, ?_, ?_, ?_⟩ <;> decide


/-! ## New rows of source-code findings -/

/-- The identity set of the baseline holds the identities collected so far and those of
the rows. -/
theorem mem_targetSourceCodeKeys (target : List SourceCodeRow) :
    ∀ (keys : List (String × Nat × Nat)) (k : String × Nat × Nat),
      k ∈ targetSourceCodeKeys keys target
        ↔ k ∈ keys ∨ k ∈ target.map sourceCodeRowIdentity := by
  induction target with
  | nil => intro keys k; simp [targetSourceCodeKeys]
  | cons row rest ih =>
    intro keys k
    unfold targetSourceCodeKeys
    rw [ih]
    by_cases hmem : sourceCodeRowIdentity row ∈ keys
    · simp only [hmem, if_true, List.map_cons, List.mem_cons]
      constructor
      · rintro (h | h)
        · exact Or.inl h
        · exact Or.inr (Or.inr h)
      · rintro (h | h | h)
        · exact Or.inl h
        · exact Or.inl (h ▸ hmem)
        · exact Or.inr h
    · simp only [hmem, if_false, List.map_cons, List.mem_cons, List.mem_append,
        List.mem_singleton]
      tauto

/-- The loop over the candidate rows appends, in their order, the rows whose identity is
not in the identity set. -/
theorem addedSourceCodeRows_eq_filter (keys : List (String × Nat × Nat))
    (source : List SourceCodeRow) :
    ∀ added : List SourceCodeRow,
      addedSourceCodeRows keys added source
        = added ++ source.filter (fun row => decide (sourceCodeRowIdentity row ∉ keys)) := by
  induction source with
  | nil => intro added; simp [addedSourceCodeRows]
  | cons row rest ih =>
    intro added
    unfold addedSourceCodeRows
    rw [ih]
    by_cases hmem : sourceCodeRowIdentity row ∈ keys
    · simp [hmem]
    · simp [hmem]

/-- C21: for all lists of source-code rows `target` and `source`,
`createNewSourceCodeRows target source` is the list of the rows of `source` whose identity,
file with start line and start column, is the identity of no row of `target`, in the order
they have in `source`; an empty `source` gives the empty list and an empty `target` gives
`source`; on the rows of `TestCreateNewIacRows` the result is the row the test expects. -/
theorem new_source_code_rows (target source : List SourceCodeRow) :
    createNewSourceCodeRows target source
        = source.filter (fun row =>
            decide (∀ t ∈ target,
              (t.File, t.StartLine, t.StartColumn)
                ≠ (row.File, row.StartLine, row.StartColumn)))
    ∧ (createNewSourceCodeRows target source).Sublist source
    ∧ (∀ row, row ∈ createNewSourceCodeRows target source
        ↔ row ∈ source
          ∧ ∀ t ∈ target,
              (t.File, t.StartLine, t.StartColumn)
                ≠ (row.File, row.StartLine, row.StartColumn))
    ∧ createNewSourceCodeRows target [] = []
    ∧ createNewSourceCodeRows [] source = source
    ∧ createNewSourceCodeRows [iacRowFile1] [iacRowFile2] = [iacRowFile2]
    ∧ createNewSourceCodeRows [iacRowFile1] [iacRowFile1, iacRowFile2] = [iacRowFile2] := by
  have hfilter : ∀ target source : List SourceCodeRow,
      createNewSourceCodeRows target source
        = source.filter (fun row =>
            decide (∀ t ∈ target,
              (t.File, t.StartLine, t.StartColumn)
                ≠ (row.File, row.StartLine, row.StartColumn))) := by
    intro target source
    unfold createNewSourceCodeRows
    rw [addedSourceCodeRows_eq_filter, List.nil_append]
    apply List.filter_congr
    intro row _
    simp only [mem_targetSourceCodeKeys, List.not_mem_nil, false_or, List.mem_map,
      sourceCodeRowIdentity, decide_eq_decide]
    constructor
    · intro h t ht heq
      exact h ⟨t, ht, heq⟩
    · rintro h ⟨t, ht, heq⟩
      exact h t ht heq
  refine ⟨hfilter target source, ?_, ?_, ?_, ?_, by decide, by decide⟩
  · rw [hfilter]; exact List.filter_sublist _
  · intro row
    rw [hfilter, List.mem_filter, decide_eq_true_eq]
  · rw [hfilter]; rfl
  · rw [hfilter]
    apply List.filter_eq_self.mpr
    intro row _
    simp


/-! ## The name of the fix branch -/

/-- C22: for every hash and every base branch, impacted package name and fix version,
`GenerateFixBranchName` returns no error and the name made of `frogbot-`, the package name
with every colon replaced by an underscore, a hyphen, and the hash of the base branch
followed by the package name as given and the fix version; the second part has the length
of the package name and no colon; when the hash of `dev`, `replace:colons:colons` and
`3.0.0` is `89e555131b4a70a32fe9d9c44d6ff0fc`, the name for them is the one that
`TestGenerateFixBranchName` expects. -/
theorem fix_branch_name_form (hash : String → String)
    (baseBranch impactedPackage fixVersion : String) :
    (GenerateFixBranchName hash baseBranch impactedPackage fixVersion).2 = none
    ∧ (GenerateFixBranchName hash baseBranch impactedPackage fixVersion).1
        = "frogbot-" ++ sanitizePackageName impactedPackage ++ "-"
            ++ hash (baseBranch ++ impactedPackage ++ fixVersion)
    ∧ (sanitizePackageName impactedPackage).data
        = impactedPackage.data.map (fun c => if c = ':' then '_' else c)
    ∧ (sanitizePackageName impactedPackage).length = impactedPackage.length
    ∧ ':' ∉ (sanitizePackageName impactedPackage).data
    ∧ ((∀ c ∈ impactedPackage.data, c ≠ ':') →
        sanitizePackageName impactedPackage = impactedPackage)
    ∧ (hash ("dev" ++ "replace:colons:colons" ++ "3.0.0") = "89e555131b4a70a32fe9d9c44d6ff0fc" →
        GenerateFixBranchName hash "dev" "replace:colons:colons" "3.0.0"
          = ("frogbot-replace_colons_colons-89e555131b4a70a32fe9d9c44d6ff0fc", none)) := by
  refine ⟨rfl, rfl, rfl, ?_, ?_, ?_, ?_⟩
  · show (impactedPackage.data.map (fun c => if c = ':' then '_' else c)).length
      = impactedPackage.data.length
    exact List.length_map _ _
  · simp only [sanitizePackageName, List.mem_map, not_exists, not_and]
    intro c _ h
    by_cases hc : c = ':'
    · simp only [hc, if_true] at h
      revert h; decide
    · simp only [hc, if_false] at h
  · intro h
    apply String.ext
    simp only [sanitizePackageName]
    conv_rhs => rw [← List.map_id impactedPackage.data]
    apply List.map_congr_left
    intro c hc
    simp [h c hc]
  · intro h
    unfold GenerateFixBranchName
    rw [h]
    rfl

/-- The content hash gives the three digests of the names that
`TestGenerateFixBranchName` expects. -/
theorem contentHash_test_digests :
    contentHash ("dev" ++ "gopkg.in/yaml.v3" ++ "3.0.0") = "d61bde82dc594e5ccc5a042fe224bf7c"
    ∧ contentHash ("master" ++ "gopkg.in/yaml.v3" ++ "3.0.0")
        = "41405528994061bd108e3bbd4c039a03"
    ∧ contentHash ("dev" ++ "replace:colons:colons" ++ "3.0.0")
        = "89e555131b4a70a32fe9d9c44d6ff0fc" := by
  refine ⟨by decide, by decide, by decide⟩

/-- C29, at the failing input: in the example world the handler without pom paths and
with the repository `maven-remote` runs the discovery command, which succeeds and writes
one non-empty line, the line of `/work/pom.xml`, which decodes; yet `getProjectPoms`
returns the error that no pom was found and leaves the list of pom paths empty, where the
same handler without a repository gets no error and the path `/work/pom.xml`. -/
theorem getProjectPoms_finds_no_pom_with_depsRepo :
    repositoryHandler.pomPaths = []
    ∧ ((exampleEnv examplePom none "").RunMvn () "maven-remote" none gavReaderGoals).err = none
    ∧ (runMvnCommand (exampleEnv examplePom none "") repositoryHandler freshSys
          gavReaderGoals).err = none
    ∧ (stringsSplitLines
          ((exampleEnv examplePom none "").RunMvn () "maven-remote" none
            gavReaderGoals).output).filter (fun line => decide (line ≠ ""))
        = [examplePomLine]
    ∧ (exampleEnv examplePom none "").jsonUnmarshal (escapeBackslashes examplePomLine)
        = .ok ⟨"/work/pom.xml"⟩
    ∧ (getProjectPoms (exampleEnv examplePom none "") repositoryHandler freshSys).err
        = some (.errorString "couldn't find any pom.xml files in the current project")
    ∧ (getProjectPoms (exampleEnv examplePom none "") repositoryHandler freshSys).mph.pomPaths
        = []
    ∧ (getProjectPoms (exampleEnv examplePom none "") freshHandler freshSys).err = none
    ∧ (getProjectPoms (exampleEnv examplePom none "") freshHandler freshSys).mph.pomPaths
        = [⟨"/work/pom.xml"⟩] := by
  refine ⟨rfl, by decide, by decide, by decide, rfl, by decide, by decide, by decide,
    by decide⟩

end Frogbot
